import Mathlib

/-!
# Selene: record reader and certificate model

A shallow embedding of `lib/backends/native/tls_io.c`, `lib/core/certs.c` and the
two descriptor-mode helpers of `tools/selene_client.c`.
Bytes and machine integers are natural numbers (or integers) with the
truncation of each store written out. Code that lives outside these files
(the tokenizer driver, brigades, ring macros, the allocator, the X.509
provider) is either a parameter or a definition marked as modelled from the
specification.
-/

namespace Selene

/-! ## Errors -/

/-- Modelled from the spec: the error kinds of section 7. Only `SELENE_EINVAL`
is produced by the embedded code; the declaration itself (`selene_error.h`) is
not part of the sources. -/
inductive selene_status_t where
  | SELENE_EINVAL
  | SELENE_ENOMEM
  | SELENE_EBADSTATE
  | SELENE_ECANCELLED
  | SELENE_EUNSUPPORTED
  deriving DecidableEq, Repr

/-- An error value: kind and message. The source file and line that the
creation routine also stores are constants of the build and are left out. -/
structure selene_error_t where
  err : selene_status_t
  msg : String
  deriving DecidableEq, Repr

/-- Formatting of `selene_error_createf(kind, "<text>%u", n)`: the text followed
by `n` in decimal. -/
def selene_error_createf_u (kind : selene_status_t) (text : String) (n : Nat) :
    selene_error_t :=
  { err := kind, msg := text ++ Nat.repr n }

/-- Result of running C code that may call `abort()`. -/
inductive sln_result (α : Type) where
  | returned (a : α)
  | aborted
  deriving DecidableEq, Repr

/-! ## Brigades and the tokenizer descriptor -/

/-- Modelled from the spec: a brigade is an ordered sequence of byte buffers
observed only through size, consume-from-head and concat, so it is represented
by its bytes in order. -/
abbrev sln_brigade_t := List Nat

/-- Directive stored in `sln_tok_value_t.next`. `TOK_COPY_BYTES`,
`TOK_COPY_BRIGADE` and `TOK_DONE` are used by `read_tls`; `TOK_PASSTHROUGH`
comes from the spec's description of the driver and `TOK__INIT` is the value of
a descriptor the callback has not filled in yet. -/
inductive sln_tok_next_e where
  | TOK__INIT
  | TOK_COPY_BYTES
  | TOK_COPY_BRIGADE
  | TOK_PASSTHROUGH
  | TOK_DONE
  deriving DecidableEq, Repr

/-- The descriptor exchanged between driver and callback: `next`, `wantlen`,
and the delivered data `v.bytes` / `v.bb`. -/
structure sln_tok_value_t where
  next : sln_tok_next_e
  wantlen : Nat
  bytes : List Nat
  bb : sln_brigade_t
  deriving DecidableEq, Repr

/-- Type of a tokenizer callback over a baton of type `β`: it may update the
descriptor and the baton, and returns an error or success; or it aborts. -/
abbrev sln_tok_cb (β : Type) :=
  sln_tok_value_t → β → sln_result (Option selene_error_t × sln_tok_value_t × β)

/-- Type of the tokenizer driver as called by `sln_native_io_tls_read`:
brigade, callback and baton in; error, remaining brigade and baton out.
`none` stands for a run that does not finish within the model's fuel. -/
abbrev sln_tok_driver (β : Type) :=
  sln_brigade_t → sln_tok_cb β → β →
    Option (sln_result (Option selene_error_t × sln_brigade_t × β))

/-! ## tls_io.c -/

/-- States of the record reader, `tls_record_state_e`. -/
inductive tls_record_state_e where
  | TLS_RS__UNUSED
  | TLS_RS__INIT
  | TLS_RS_CONTENT_TYPE
  | TLS_RS_VERSION
  | TLS_RS_LENGTH
  | TLS_RS_MESSAGE
  | TLS_RS_MAC
  | TLS_RS_PADDING
  | TLS_RS__DONE
  | TLS_RS__MAX
  deriving DecidableEq, Repr

/-- The fields of `sln_native_baton_t` that `tls_io.c` touches. -/
structure sln_native_baton_t where
  in_handshake : sln_brigade_t
  peer_version_major : Nat
  peer_version_minor : Nat
  deriving DecidableEq, Repr

/-- The field of `selene_t` that `tls_io.c` touches: `s->bb.in_enc`. -/
structure selene_t where
  in_enc : sln_brigade_t
  deriving DecidableEq, Repr

/-- The callback baton `rtls_baton_t`. The pointer `baton` is represented by the
native baton it points to, so updates through it are updates of this field. -/
structure rtls_baton_t where
  state : tls_record_state_e
  baton : sln_native_baton_t
  content_type : Nat
  version_major : Nat
  version_minor : Nat
  length : Nat
  deriving DecidableEq, Repr

/-- Function `is_valid_content_type` returns 1 for 20, 21, 22, 23 and 0 otherwise. -/
def is_valid_content_type (input : Nat) : Nat :=
  if input = 20 ∨ input = 21 ∨ input = 22 ∨ input = 23 then 1 else 0

/-- Read of `v->v.bytes[i]`; the array is zero-filled beyond the delivered bytes. -/
def tok_byte (v : sln_tok_value_t) (i : Nat) : Nat := v.bytes.getD i 0

/-- The callback `read_tls`: one step of the record state machine. -/
def read_tls : sln_tok_cb rtls_baton_t := fun v rtls =>
  match rtls.state with
  | .TLS_RS__INIT =>
    .returned (none,
      { v with next := .TOK_COPY_BYTES, wantlen := 1 },
      { rtls with state := .TLS_RS_CONTENT_TYPE })
  | .TLS_RS_CONTENT_TYPE =>
    let rtls1 := { rtls with content_type := tok_byte v 0 % 256 }
    if is_valid_content_type rtls1.content_type = 0 then
      .returned (some (selene_error_createf_u .SELENE_EINVAL "Invalid content type: "
        rtls1.content_type), v, rtls1)
    else
      .returned (none,
        { v with next := .TOK_COPY_BYTES, wantlen := 2 },
        { rtls1 with state := .TLS_RS_VERSION })
  | .TLS_RS_VERSION =>
    .returned (none,
      { v with next := .TOK_COPY_BYTES, wantlen := 2 },
      { rtls with version_major := tok_byte v 0 % 256,
                  version_minor := tok_byte v 1 % 256,
                  state := .TLS_RS_LENGTH })
  | .TLS_RS_LENGTH =>
    let len := (((tok_byte v 0 % 256) <<< 8) ||| (tok_byte v 1 % 256)) % 65536
    .returned (none,
      { v with next := .TOK_COPY_BRIGADE, wantlen := len },
      { rtls with length := len, state := .TLS_RS_MESSAGE })
  | .TLS_RS_MESSAGE =>
    .returned (none,
      { v with next := .TOK_DONE, wantlen := 0, bb := [] },
      { rtls with baton := { rtls.baton with
                              in_handshake := rtls.baton.in_handshake ++ v.bb },
                  state := .TLS_RS__DONE })
  | _ => .aborted

/-- The baton built at the start of `sln_native_io_tls_read`: zeroed, then
`baton` and `state = TLS_RS__INIT` set. -/
def rtls_init (baton : sln_native_baton_t) : rtls_baton_t :=
  { state := .TLS_RS__INIT, baton := baton, content_type := 0,
    version_major := 0, version_minor := 0, length := 0 }

/-- Function `sln_native_io_tls_read`, with the tokenizer driver `tok` (not part
of the sources) as a parameter. -/
def sln_native_io_tls_read (tok : sln_tok_driver rtls_baton_t) (s : selene_t)
    (baton : sln_native_baton_t) :
    Option (sln_result (Option selene_error_t × selene_t × sln_native_baton_t)) :=
  match tok s.in_enc read_tls (rtls_init baton) with
  | none => none
  | some .aborted => some .aborted
  | some (.returned (some err, bb, rtls)) =>
    some (.returned (some err, { s with in_enc := bb }, rtls.baton))
  | some (.returned (none, bb, rtls)) =>
    if rtls.state = .TLS_RS__DONE then
      some (.returned (none, { s with in_enc := bb },
        { rtls.baton with peer_version_major := rtls.version_major,
                          peer_version_minor := rtls.version_minor }))
    else
      some (.returned (none, { s with in_enc := bb }, rtls.baton))

/-! ## The tokenizer driver -/

/-- Descriptor handed to the callback on its first invocation. -/
def sln_tok_value_zero : sln_tok_value_t :=
  { next := .TOK__INIT, wantlen := 0, bytes := [], bb := [] }

/-- Modelled from the spec: the loop of the tokenizer driver `sln_tok_parser`
(section 4.2), whose source is missing. While the brigade holds at least
`wantlen` bytes the request is fulfilled by consuming them from the head
(as a byte array for `COPY_BYTES`, as a brigade for `COPY_BRIGADE`, without a
copy for `PASSTHROUGH`), the callback is invoked and its next directive is
honoured; a callback error is returned at once; with too few bytes the driver
suspends and returns success; `DONE` ends the run. A descriptor without a
directive ends the run as well. Each iteration uses one unit of fuel. -/
def sln_tok_loop {β : Type} (cb : sln_tok_cb β) :
    Nat → sln_brigade_t → sln_tok_value_t → β →
      Option (sln_result (Option selene_error_t × sln_brigade_t × β))
  | 0, _, _, _ => none
  | fuel + 1, bb, v, baton =>
    match v.next with
    | .TOK_DONE => some (.returned (none, bb, baton))
    | .TOK__INIT => some (.returned (none, bb, baton))
    | d =>
      if bb.length < v.wantlen then
        some (.returned (none, bb, baton))
      else
        let v1 : sln_tok_value_t :=
          match d with
          | .TOK_COPY_BYTES => { v with bytes := bb.take v.wantlen }
          | .TOK_COPY_BRIGADE => { v with bb := bb.take v.wantlen }
          | _ => v
        match cb v1 baton with
        | .aborted => some .aborted
        | .returned (some err, _, baton1) =>
          some (.returned (some err, bb.drop v.wantlen, baton1))
        | .returned (none, v2, baton1) =>
          sln_tok_loop cb fuel (bb.drop v.wantlen) v2 baton1

/-- Modelled from the spec: the tokenizer driver `sln_tok_parser`. It first asks
the callback what it wants, then runs the loop. -/
def sln_tok_parser_run {β : Type} (fuel : Nat) : sln_tok_driver β :=
  fun bb cb baton =>
    match cb sln_tok_value_zero baton with
    | .aborted => some .aborted
    | .returned (some err, _, baton1) => some (.returned (some err, bb, baton1))
    | .returned (none, v, baton1) => sln_tok_loop cb fuel bb v baton1

/-! ## Feeding the encrypted input -/

/-- Modelled from the spec: the wire format of one record (section 6.1):
content type, version major and minor, length as two big-endian bytes, payload. -/
def tls_record (t maj min L : Nat) (p : List Nat) : List Nat :=
  t :: maj :: min :: (L / 256) :: (L % 256) :: p

/-- Modelled from the spec: the enqueue step of `io_in_enc_bytes`, which appends
the pushed bytes to `in_enc`. -/
def push_in_enc (s : selene_t) (bytes : List Nat) : selene_t :=
  { s with in_enc := s.in_enc ++ bytes }

/-- Peer version recorded on the session. -/
def peer_version (b : sln_native_baton_t) : Nat × Nat :=
  (b.peer_version_major, b.peer_version_minor)

/-- Push each chunk in turn into `in_enc` and run `sln_native_io_tls_read` after
each push. The result lists the errors returned by the reads, in order, with the
final session and baton. -/
def feed_chunks (fuel : Nat) :
    selene_t → sln_native_baton_t → List (List Nat) →
      Option (sln_result (List selene_error_t × selene_t × sln_native_baton_t))
  | s, baton, [] => some (.returned ([], s, baton))
  | s, baton, c :: cs =>
    match sln_native_io_tls_read (sln_tok_parser_run fuel) (push_in_enc s c) baton with
    | none => none
    | some .aborted => some .aborted
    | some (.returned (e, s1, b1)) =>
      match feed_chunks fuel s1 b1 cs with
      | none => none
      | some .aborted => some .aborted
      | some (.returned (es, s2, b2)) => some (.returned (e.toList ++ es, s2, b2))

/-- Push `B` whole and read once. -/
def feed_whole (fuel : Nat) (s : selene_t) (baton : sln_native_baton_t) (B : List Nat) :
    Option (sln_result (List selene_error_t × selene_t × sln_native_baton_t)) :=
  feed_chunks fuel s baton [B]

/-- Push `B[0..k)`, read, push `B[k..)`, read again. -/
def feed_split (fuel : Nat) (s : selene_t) (baton : sln_native_baton_t) (B : List Nat)
    (k : Nat) :
    Option (sln_result (List selene_error_t × selene_t × sln_native_baton_t)) :=
  feed_chunks fuel s baton [B.take k, B.drop k]

/-! ## Runs of the callback -/

/-- The order of the record states in the spec's table. -/
def tls_state_order : List tls_record_state_e :=
  [.TLS_RS__INIT, .TLS_RS_CONTENT_TYPE, .TLS_RS_VERSION, .TLS_RS_LENGTH, .TLS_RS_MESSAGE,
   .TLS_RS__DONE]

/-- The immediate successor of a state in `tls_state_order`. -/
def tls_successor : tls_record_state_e → Option tls_record_state_e
  | .TLS_RS__INIT => some .TLS_RS_CONTENT_TYPE
  | .TLS_RS_CONTENT_TYPE => some .TLS_RS_VERSION
  | .TLS_RS_VERSION => some .TLS_RS_LENGTH
  | .TLS_RS_LENGTH => some .TLS_RS_MESSAGE
  | .TLS_RS_MESSAGE => some .TLS_RS__DONE
  | _ => none

/-- The requests of one record in order, for a decoded length. -/
def tls_request_order (length : Nat) : List (sln_tok_next_e × Nat) :=
  [(.TOK_COPY_BYTES, 1), (.TOK_COPY_BYTES, 2), (.TOK_COPY_BYTES, 2),
   (.TOK_COPY_BRIGADE, length), (.TOK_DONE, 0)]

/-- What a sequence of invocations of the callback leaves behind: the states
visited, the requests issued (`next` and `wantlen` after each successful step),
whether `abort()` was reached, the error of a failing step, and the baton at
the end. -/
structure tls_run where
  states : List tls_record_state_e
  requests : List (sln_tok_next_e × Nat)
  aborted : Bool
  error : Option selene_error_t
  final : rtls_baton_t
  deriving DecidableEq, Repr

/-- A run of `read_tls`: the callback is invoked on the descriptors `vs` in turn,
whatever a driver put into them, until it fails, aborts, answers `TOK_DONE`, or
the descriptors are used up. -/
def read_tls_run : rtls_baton_t → List sln_tok_value_t → tls_run
  | rtls, [] =>
    { states := [rtls.state], requests := [], aborted := false, error := none, final := rtls }
  | rtls, v :: vs =>
    match read_tls v rtls with
    | .aborted =>
      { states := [rtls.state], requests := [], aborted := true, error := none,
        final := rtls }
    | .returned (some e, _, r1) =>
      { states := [rtls.state], requests := [], aborted := false, error := some e,
        final := r1 }
    | .returned (none, v1, r1) =>
      if v1.next = .TOK_DONE then
        { states := [rtls.state, r1.state], requests := [(v1.next, v1.wantlen)],
          aborted := false, error := none, final := r1 }
      else
        let run := read_tls_run r1 vs
        { run with states := rtls.state :: run.states,
                   requests := (v1.next, v1.wantlen) :: run.requests }

/-- Descriptors as the driver would deliver them for the record
16 03 01 00 05 01 02 03 04 05: the first empty, then one byte, two bytes, two
bytes and the payload brigade. -/
def run_example : List sln_tok_value_t :=
  [ sln_tok_value_zero,
    { next := .TOK_COPY_BYTES, wantlen := 1, bytes := [22], bb := [] },
    { next := .TOK_COPY_BYTES, wantlen := 2, bytes := [3, 1], bb := [] },
    { next := .TOK_COPY_BYTES, wantlen := 2, bytes := [0, 5], bb := [] },
    { next := .TOK_COPY_BRIGADE, wantlen := 5, bytes := [0, 5], bb := [1, 2, 3, 4, 5] } ]

/-! ## certs.c: fingerprint encoding -/

/-- The character `'\0'`. -/
def NUL : Char := Char.ofNat 0

/-- The array `const char hex[] = "0123456789ABCDEF"`, terminating NUL included. -/
def hex : List Char := "0123456789ABCDEF".toList ++ [NUL]

/-- Read of `hex[i]`. -/
def hex_at (i : Nat) : Char := hex.getD i NUL

/-- Function `sln_conf_strdup` applied to a character buffer: the characters before the
first NUL. -/
def sln_conf_strdup (buf : List Char) : String :=
  String.mk (buf.takeWhile (fun c => c != NUL))

/-- Body of the loop of `hash_to_fingerprint_hex` for index `i`. -/
def fingerprint_step (md : List Nat) (fingerprint : List Char) (i : Nat) : List Char :=
  ((fingerprint.set (3 * i) (hex_at ((md.getD i 0 &&& 0xf0) >>> 4))).set
      (3 * i + 1) (hex_at (md.getD i 0 &&& 0x0f))).set (3 * i + 2) ':'

/-- Function `hash_to_fingerprint_hex`. `stack` is the initial (indeterminate) content
of the local array `fingerprint[EVP_MAX_MD_SIZE * 3]`; the result is the string
stored through `out`. -/
def hash_to_fingerprint_hex (stack : List Char) (md : List Nat) (md_size : Nat) : String :=
  let fingerprint := (List.range md_size).foldl (fingerprint_step md) stack
  let fingerprint :=
    if md_size > 0 then fingerprint.set (3 * (md_size - 1) + 2) NUL
    else fingerprint.set 0 NUL
  sln_conf_strdup fingerprint

/-- Uppercase hexadecimal digit of a value below 16. -/
def hex_digit (d : Nat) : Char :=
  if d < 10 then Char.ofNat (48 + d) else Char.ofNat (55 + d)

/-- The two uppercase hexadecimal digits of a byte, high nibble first. -/
def hex_pair (b : Nat) : List Char := [hex_digit (b / 16), hex_digit (b % 16)]

/-- Content of the buffer after the loop: each pair followed by a colon. -/
def fp_body (md : List Nat) : List Char :=
  (md.map (fun b => hex_pair b ++ [':'])).flatten

/-- The fingerprint as the spec words it: the digit pairs of the bytes in order,
with a single `:` between consecutive pairs. -/
def fingerprint_spec (md : List Nat) : String :=
  String.mk ([':'].intercalate (md.map hex_pair))

/-- Characters `0`-`9` and `A`-`F`. -/
def is_upper_hex (c : Char) : Bool :=
  (48 ≤ c.toNat && c.toNat ≤ 57) || (65 ≤ c.toNat && c.toNat ≤ 70)

/-- Matcher for the pattern `[0-9A-F]{2}(:[0-9A-F]{2})*`. -/
def fingerprint_format : List Char → Bool
  | [a, b] => is_upper_hex a && is_upper_hex b
  | a :: b :: c :: rest => is_upper_hex a && is_upper_hex b && c == ':' && fingerprint_format rest
  | _ => false

/-- Value of an uppercase hexadecimal digit. -/
def hex_value (c : Char) : Option Nat :=
  if 48 ≤ c.toNat ∧ c.toNat ≤ 57 then some (c.toNat - 48)
  else if 65 ≤ c.toNat ∧ c.toNat ≤ 70 then some (c.toNat - 55)
  else none

/-- Reading of a pair of hexadecimal digits as a byte. -/
def hex_pair_value : List Char → Option Nat
  | [a, b] =>
    match hex_value a, hex_value b with
    | some x, some y => some (16 * x + y)
    | _, _ => none
  | _ => none

/-- Reading of a list of digit pairs; fails when one of them is not a pair of
hexadecimal digits. -/
def hex_pairs_value : List (List Char) → Option (List Nat)
  | [] => some []
  | p :: ps =>
    match hex_pair_value p, hex_pairs_value ps with
    | some b, some bs => some (b :: bs)
    | _, _ => none

/-- Parsing of a fingerprint back into bytes, as the spec words it: split on `:`
and read each pair as a hexadecimal byte. The empty string is the empty digest. -/
def fingerprint_parse (s : String) : Option (List Nat) :=
  if s.data = [] then some [] else hex_pairs_value (s.data.splitOn ':')

/-! ## certs.c: certificates -/

/-- Modelled from the spec: an X.509 name as answered by `X509_NAME_get_text_by_NID`
for the seven attributes that are queried: the text written to the buffer, or
`none` when the attribute is absent (return value -1). -/
structure X509_NAME where
  commonName : Option String
  emailAddress : Option String
  organizationName : Option String
  organizationalUnitName : Option String
  localityName : Option String
  stateOrProvinceName : Option String
  countryName : Option String
  deriving DecidableEq, Repr

/-- The `ASN1_STRING` behind `nm->d.ia5`: `length` and `data`. -/
structure ASN1_STRING where
  length : Nat
  data : List Nat
  deriving DecidableEq, Repr

/-- A `GENERAL_NAME`: its `type` tag and the string `d.ia5`. -/
structure GENERAL_NAME where
  type : Int
  ia5 : ASN1_STRING
  deriving DecidableEq, Repr

/-- The tag `GEN_DNS` of the provider's headers. -/
def GEN_DNS : Int := 2

/-- Modelled from the spec: the opaque X.509 handle, given by what the
(deterministic) cryptographic provider answers for it: the two digests (`none`
when `X509_digest` returns 0), whether `BIO_new` succeeds, the validity
timestamps as converted by `sln_asn1_time_to_timestamp`, the texts printed by
`ASN1_TIME_print` (`none` when it fails), issuer and subject names, the version
field and the decoded subjectAltName extension (`none` when absent). -/
structure X509 where
  digest_sha1 : Option (List Nat)
  digest_md5 : Option (List Nat)
  bio_new_ok : Bool
  notBefore_ts : Int
  notBefore_text : Option String
  notAfter_ts : Int
  notAfter_text : Option String
  issuer_name : Option X509_NAME
  subject_name : Option X509_NAME
  version : Int
  subject_alt_name : Option (List GENERAL_NAME)
  deriving DecidableEq, Repr

/-- The record `selene_cert_name_t`: seven optional owned strings. -/
structure selene_cert_name_t where
  commonName : Option String
  emailAddress : Option String
  organizationalUnitName : Option String
  organizationName : Option String
  localityName : Option String
  stateOrProvinceName : Option String
  countryName : Option String
  deriving DecidableEq, Repr

/-- A pointer into a certificate ring: the sentinel of the chain head or the
certificate stored at an address. -/
inductive cert_ptr where
  | sentinel
  | elem (a : Nat)
  deriving DecidableEq, Repr

/-- The structure `selene_cert_t` as used by `certs.c`: handle, depth, ring
link and the cache fields. A null cache pointer is `none`; the two timestamps
use 0 for "not computed". The last field is a ghost counter of the runs of the
generating routines (`generate_fingerprint_sha1`, `generate_fingerprint_md5`,
`generate_expires`, `generate_issuer`, `generate_subject`,
`generate_subject_alt_names`) on this certificate. -/
structure selene_cert_t where
  cert : X509
  depth : Int
  link_next : cert_ptr
  link_prev : cert_ptr
  cache_fingerprint_sha1 : Option String
  cache_fingerprint_md5 : Option String
  cache_not_before : Option String
  cache_not_after : Option String
  cache_not_before_ts : Int
  cache_not_after_ts : Int
  cache_subject : Option selene_cert_name_t
  cache_issuer : Option selene_cert_name_t
  cache_subjectAltNames : Option (List (List Nat))
  generated : Nat
  deriving DecidableEq, Repr

/-- Modelled from the spec: the allocator owned by the configuration, observed
through two counters: allocations made (`sln_conf_alloc`, `sln_conf_calloc`,
`sln_conf_strdup`, `sln_array_make`) and releases made (`sln_conf_free`,
`sln_array_destroy`). -/
structure selene_conf_t where
  allocs : Nat
  frees : Nat
  deriving DecidableEq, Repr

/-- One allocation through the configuration. -/
def conf_alloc (conf : selene_conf_t) : selene_conf_t :=
  { conf with allocs := conf.allocs + 1 }

/-- One release through the configuration. -/
def conf_free (conf : selene_conf_t) : selene_conf_t :=
  { conf with frees := conf.frees + 1 }

/-- Function `selene_cert_depth`. -/
def selene_cert_depth (cert : selene_cert_t) : Int := cert.depth

/-- Function `generate_fingerprint_sha1`. -/
def generate_fingerprint_sha1 (stack : List Char) (conf : selene_conf_t)
    (cert : selene_cert_t) : selene_conf_t × selene_cert_t :=
  let cert := { cert with generated := cert.generated + 1 }
  match cert.cert.digest_sha1 with
  | some md =>
    (conf_alloc conf,
      { cert with cache_fingerprint_sha1 := some (hash_to_fingerprint_hex stack md md.length) })
  | none => (conf, cert)

/-- Function `selene_cert_fingerprint_sha1`. -/
def selene_cert_fingerprint_sha1 (stack : List Char) (conf : selene_conf_t)
    (cert : selene_cert_t) : Option String × selene_conf_t × selene_cert_t :=
  let (conf1, cert1) :=
    if cert.cache_fingerprint_sha1 = none then generate_fingerprint_sha1 stack conf cert
    else (conf, cert)
  (cert1.cache_fingerprint_sha1, conf1, cert1)

/-- Function `generate_fingerprint_md5`. -/
def generate_fingerprint_md5 (stack : List Char) (conf : selene_conf_t)
    (cert : selene_cert_t) : selene_conf_t × selene_cert_t :=
  let cert := { cert with generated := cert.generated + 1 }
  match cert.cert.digest_md5 with
  | some md =>
    (conf_alloc conf,
      { cert with cache_fingerprint_md5 := some (hash_to_fingerprint_hex stack md md.length) })
  | none => (conf, cert)

/-- Function `selene_cert_fingerprint_md5`. -/
def selene_cert_fingerprint_md5 (stack : List Char) (conf : selene_conf_t)
    (cert : selene_cert_t) : Option String × selene_conf_t × selene_cert_t :=
  let (conf1, cert1) :=
    if cert.cache_fingerprint_md5 = none then generate_fingerprint_md5 stack conf cert
    else (conf, cert)
  (cert1.cache_fingerprint_md5, conf1, cert1)

/-- Function `generate_expires`: with a BIO at hand, both timestamps are stored and each
printable date is duplicated when printing succeeds. -/
def generate_expires (conf : selene_conf_t) (cert : selene_cert_t) :
    selene_conf_t × selene_cert_t :=
  let cert := { cert with generated := cert.generated + 1 }
  if cert.cert.bio_new_ok then
    let cert1 := { cert with cache_not_before_ts := cert.cert.notBefore_ts }
    let (conf2, cert2) :=
      match cert.cert.notBefore_text with
      | some buf => (conf_alloc conf, { cert1 with cache_not_before := some buf })
      | none => (conf, cert1)
    let cert3 := { cert2 with cache_not_after_ts := cert.cert.notAfter_ts }
    match cert.cert.notAfter_text with
    | some buf => (conf_alloc conf2, { cert3 with cache_not_after := some buf })
    | none => (conf2, cert3)
  else (conf, cert)

/-- Function `selene_cert_not_before`. -/
def selene_cert_not_before (conf : selene_conf_t) (cert : selene_cert_t) :
    Int × selene_conf_t × selene_cert_t :=
  let (conf1, cert1) :=
    if cert.cache_not_before_ts = 0 then generate_expires conf cert else (conf, cert)
  (cert1.cache_not_before_ts, conf1, cert1)

/-- Function `selene_cert_not_after`. -/
def selene_cert_not_after (conf : selene_conf_t) (cert : selene_cert_t) :
    Int × selene_conf_t × selene_cert_t :=
  let (conf1, cert1) :=
    if cert.cache_not_after_ts = 0 then generate_expires conf cert else (conf, cert)
  (cert1.cache_not_after_ts, conf1, cert1)

/-- Function `selene_cert_not_before_str`. -/
def selene_cert_not_before_str (conf : selene_conf_t) (cert : selene_cert_t) :
    Option String × selene_conf_t × selene_cert_t :=
  let (conf1, cert1) :=
    if cert.cache_not_before = none then generate_expires conf cert else (conf, cert)
  (cert1.cache_not_before, conf1, cert1)

/-- Function `selene_cert_not_after_str`. -/
def selene_cert_not_after_str (conf : selene_conf_t) (cert : selene_cert_t) :
    Option String × selene_conf_t × selene_cert_t :=
  let (conf1, cert1) :=
    if cert.cache_not_after = none then generate_expires conf cert else (conf, cert)
  (cert1.cache_not_after, conf1, cert1)

/-- One attribute of `convert_X509_NAME_to_selene_name`: duplicate the text when the
lookup succeeds. -/
def conf_strdup_opt (conf : selene_conf_t) (text : Option String) (old : Option String) :
    selene_conf_t × Option String :=
  match text with
  | some buf => (conf_alloc conf, some buf)
  | none => (conf, old)

/-- Function `convert_X509_NAME_to_selene_name`, in the order of the source: commonName,
emailAddress, organizationName, organizationalUnitName, localityName,
stateOrProvinceName, countryName. -/
def convert_X509_NAME_to_selene_name (conf : selene_conf_t) (org : X509_NAME)
    (name : selene_cert_name_t) : selene_conf_t × selene_cert_name_t :=
  let (c1, n1) := conf_strdup_opt conf org.commonName name.commonName
  let (c2, n2) := conf_strdup_opt c1 org.emailAddress name.emailAddress
  let (c3, n3) := conf_strdup_opt c2 org.organizationName name.organizationName
  let (c4, n4) := conf_strdup_opt c3 org.organizationalUnitName name.organizationalUnitName
  let (c5, n5) := conf_strdup_opt c4 org.localityName name.localityName
  let (c6, n6) := conf_strdup_opt c5 org.stateOrProvinceName name.stateOrProvinceName
  let (c7, n7) := conf_strdup_opt c6 org.countryName name.countryName
  (c7, { commonName := n1, emailAddress := n2, organizationalUnitName := n4,
         organizationName := n3, localityName := n5, stateOrProvinceName := n6,
         countryName := n7 })

/-- A zeroed `selene_cert_name_t`, as returned by `sln_conf_calloc`. -/
def selene_cert_name_zero : selene_cert_name_t :=
  { commonName := none, emailAddress := none, organizationalUnitName := none,
    organizationName := none, localityName := none, stateOrProvinceName := none,
    countryName := none }

/-- Function `generate_issuer`. -/
def generate_issuer (conf : selene_conf_t) (cert : selene_cert_t) :
    selene_conf_t × selene_cert_t :=
  let cert := { cert with generated := cert.generated + 1 }
  match cert.cert.issuer_name with
  | none => (conf, cert)
  | some issuer =>
    let (conf1, name) :=
      convert_X509_NAME_to_selene_name (conf_alloc conf) issuer selene_cert_name_zero
    (conf1, { cert with cache_issuer := some name })

/-- Function `selene_cert_issuer`. -/
def selene_cert_issuer (conf : selene_conf_t) (cert : selene_cert_t) :
    Option selene_cert_name_t × selene_conf_t × selene_cert_t :=
  let (conf1, cert1) :=
    if cert.cache_issuer = none then generate_issuer conf cert else (conf, cert)
  (cert1.cache_issuer, conf1, cert1)

/-- Function `generate_subject`. -/
def generate_subject (conf : selene_conf_t) (cert : selene_cert_t) :
    selene_conf_t × selene_cert_t :=
  let cert := { cert with generated := cert.generated + 1 }
  match cert.cert.subject_name with
  | none => (conf, cert)
  | some subject =>
    let (conf1, name) :=
      convert_X509_NAME_to_selene_name (conf_alloc conf) subject selene_cert_name_zero
    (conf1, { cert with cache_subject := some name })

/-- Function `selene_cert_subject`. -/
def selene_cert_subject (conf : selene_conf_t) (cert : selene_cert_t) :
    Option selene_cert_name_t × selene_conf_t × selene_cert_t :=
  let (conf1, cert1) :=
    if cert.cache_subject = none then generate_subject conf cert else (conf, cert)
  (cert1.cache_subject, conf1, cert1)

/-- Function `selene_cert_version`. -/
def selene_cert_version (cert : selene_cert_t) : Int := cert.cert.version + 1

/-- The copy made for a DNS entry: `length` bytes of `data`, then a NUL. -/
def alt_name_copy (nm : GENERAL_NAME) : List Nat :=
  nm.ia5.data.take nm.ia5.length ++ [0]

/-- Body of the loop of `generate_subject_alt_names` for index `i`: a `GEN_DNS` entry is
copied into a fresh allocation and pushed, any other entry is skipped. -/
def alt_names_step (names : List GENERAL_NAME)
    (acc : selene_conf_t × List (List Nat)) (i : Nat) : selene_conf_t × List (List Nat) :=
  match names[i]? with
  | some nm =>
    if nm.type = GEN_DNS then (conf_alloc acc.1, acc.2 ++ [alt_name_copy nm])
    else acc
  | none => acc

/-- Function `generate_subject_alt_names`: the array is made first, then filled from the
extension if there is one. -/
def generate_subject_alt_names (conf : selene_conf_t) (cert : selene_cert_t) :
    selene_conf_t × selene_cert_t :=
  let cert := { cert with generated := cert.generated + 1 }
  let conf1 := conf_alloc conf
  match cert.cert.subject_alt_name with
  | some names =>
    let names_count := names.length
    let (conf2, arr) := (List.range names_count).foldl (alt_names_step names) (conf1, [])
    (conf2, { cert with cache_subjectAltNames := some arr })
  | none => (conf1, { cert with cache_subjectAltNames := some [] })

/-- Function `selene_cert_alt_names_count`: the `nelts` of the cache array (which is
never null here, `generate_subject_alt_names` having just made it). -/
def selene_cert_alt_names_count (conf : selene_conf_t) (cert : selene_cert_t) :
    Int × selene_conf_t × selene_cert_t :=
  let (conf1, cert1) :=
    if cert.cache_subjectAltNames = none then generate_subject_alt_names conf cert
    else (conf, cert)
  (match cert1.cache_subjectAltNames with
   | some arr => (arr.length : Int)
   | none => 0, conf1, cert1)

/-! ## Entry of the subjectAltName cache -/

/-- A `char *` read from the cache array: null, a stored name, or a read at an
index that lies outside the elements of the array. -/
inductive alt_name_ref where
  | null
  | name (n : List Nat)
  | out_of_bounds (i : Int)
  deriving DecidableEq, Repr

/-- Modelled from the spec: `SLN_ARRAY_IDX(ary, i, char *)` of the array container
(its header is not part of the sources), the plain indexed read `elts[i]`: the
element when `0 <= i < nelts`, a read outside the elements otherwise. -/
def SLN_ARRAY_IDX (arr : List (List Nat)) (i : Int) : alt_name_ref :=
  if 0 ≤ i then
    match arr[i.toNat]? with
    | some n => .name n
    | none => .out_of_bounds i
  else .out_of_bounds i

/-- Function `selene_cert_alt_names_entry`: generate the cache when it is null, return
null when `offset >= nelts`, else return the array element at `offset`. (The
cache is never null at the test, `generate_subject_alt_names` having just made
it.) -/
def selene_cert_alt_names_entry (conf : selene_conf_t) (cert : selene_cert_t)
    (offset : Int) : alt_name_ref × selene_conf_t × selene_cert_t :=
  let (conf1, cert1) :=
    if cert.cache_subjectAltNames = none then generate_subject_alt_names conf cert
    else (conf, cert)
  match cert1.cache_subjectAltNames with
  | some arr =>
    if offset ≥ (arr.length : Int) then (.null, conf1, cert1)
    else (SLN_ARRAY_IDX arr offset, conf1, cert1)
  | none => (.null, conf1, cert1)

/-! ## The lazy accessors, uniformly -/

/-- The nine lazy accessors of a certificate. -/
inductive cert_accessor where
  | fingerprint_sha1
  | fingerprint_md5
  | not_before
  | not_after
  | not_before_str
  | not_after_str
  | subject
  | issuer
  | alt_names_count
  deriving DecidableEq, Repr

/-- A value returned by an accessor: a string pointer (null is `none`), a
timestamp, a name record pointer, or a count. -/
inductive cert_value where
  | str (s : Option String)
  | ts (t : Int)
  | name (n : Option selene_cert_name_t)
  | count (n : Int)
  deriving DecidableEq, Repr

/-- Call of an accessor: the returned value with the configuration and the
certificate after the call. `stack` is the indeterminate content of the local
fingerprint buffer, used by the two fingerprint accessors only. -/
def cert_accessor.call (a : cert_accessor) (stack : List Char) (conf : selene_conf_t)
    (cert : selene_cert_t) : cert_value × selene_conf_t × selene_cert_t :=
  match a with
  | .fingerprint_sha1 =>
    let r := selene_cert_fingerprint_sha1 stack conf cert
    (.str r.1, r.2)
  | .fingerprint_md5 =>
    let r := selene_cert_fingerprint_md5 stack conf cert
    (.str r.1, r.2)
  | .not_before =>
    let r := selene_cert_not_before conf cert
    (.ts r.1, r.2)
  | .not_after =>
    let r := selene_cert_not_after conf cert
    (.ts r.1, r.2)
  | .not_before_str =>
    let r := selene_cert_not_before_str conf cert
    (.str r.1, r.2)
  | .not_after_str =>
    let r := selene_cert_not_after_str conf cert
    (.str r.1, r.2)
  | .subject =>
    let r := selene_cert_subject conf cert
    (.name r.1, r.2)
  | .issuer =>
    let r := selene_cert_issuer conf cert
    (.name r.1, r.2)
  | .alt_names_count =>
    let r := selene_cert_alt_names_count conf cert
    (.count r.1, r.2)

/-- A returned value that shows a filled cache: a non-null pointer, a non-zero
timestamp, or a count (the array cache is always filled after the call). -/
def cert_value.populated : cert_value → Bool
  | .str s => s.isSome
  | .ts t => t != 0
  | .name n => n.isSome
  | .count _ => true

/-- Second-call agreement for one accessor: the second call returns the value of
the first and, when that value shows a filled cache, leaves configuration and
certificate as the first call left them. -/
def second_call_agrees (a : cert_accessor) (stack1 stack2 : List Char) (conf : selene_conf_t)
    (cert : selene_cert_t) : Prop :=
  (a.call stack2 (a.call stack1 conf cert).2.1 (a.call stack1 conf cert).2.2).1
      = (a.call stack1 conf cert).1
  ∧ ((a.call stack1 conf cert).1.populated = true →
      (a.call stack2 (a.call stack1 conf cert).2.1 (a.call stack1 conf cert).2.2).2
        = (a.call stack1 conf cert).2)

/-- The loop body of `generate_subject_alt_names` on an entry rather than an index. -/
def alt_names_push (acc : selene_conf_t × List (List Nat)) (nm : GENERAL_NAME) :
    selene_conf_t × List (List Nat) :=
  if nm.type = GEN_DNS then (conf_alloc acc.1, acc.2 ++ [alt_name_copy nm]) else acc

/-- The DNS entries of a subjectAltName extension as the spec words them: the
entries of DNS type, in order, each as its bytes followed by a NUL. -/
def dns_names_spec (names : List GENERAL_NAME) : List (List Nat) :=
  (names.filter (fun nm => nm.type = GEN_DNS)).map (fun nm => nm.ia5.data ++ [0])

/-- A certificate as left by `sln_cert_create` apart from its ring link: handle
and depth set, every cache field zero. -/
def cert_fresh (x509 : X509) (depth : Int) (next prev : cert_ptr) : selene_cert_t :=
  { cert := x509, depth := depth, link_next := next, link_prev := prev,
    cache_fingerprint_sha1 := none, cache_fingerprint_md5 := none,
    cache_not_before := none, cache_not_after := none,
    cache_not_before_ts := 0, cache_not_after_ts := 0,
    cache_subject := none, cache_issuer := none, cache_subjectAltNames := none,
    generated := 0 }

/-- An X.509 handle for examples: SHA-1 digest AB CD EF, no MD5 digest, validity
starting at the epoch (timestamp 0), no names, two DNS entries and one entry of
another kind in subjectAltName. -/
def x509_example : X509 :=
  { digest_sha1 := some [0xAB, 0xCD, 0xEF], digest_md5 := none, bio_new_ok := true,
    notBefore_ts := 0, notBefore_text := some "Jan  1 00:00:00 1970 GMT",
    notAfter_ts := 2000000000, notAfter_text := some "May 18 03:33:20 2033 GMT",
    issuer_name := none, subject_name := none, version := 2,
    subject_alt_name := some
      [ { type := 2, ia5 := { length := 1, data := [97] } },
        { type := 7, ia5 := { length := 4, data := [10, 0, 0, 1] } },
        { type := 2, ia5 := { length := 2, data := [98, 99] } } ] }

/-! ## certs.c: certificate chains -/

/-- The head `selene_cert_chain_t`: the two pointers of its ring head `list`. -/
structure selene_cert_chain_t where
  list_next : cert_ptr
  list_prev : cert_ptr
  deriving DecidableEq, Repr

/-- Memory holding one chain and the certificates allocated from its
configuration: the chain head, the certificate stored at each address (`none`
where nothing is allocated), the certificate addresses released so far by
`sln_conf_free(conf, cert)`, in order, and the configuration's counters. -/
structure cert_mem where
  chain : selene_cert_chain_t
  cells : Nat → Option selene_cert_t
  freed : List Nat
  conf : selene_conf_t

/-- Modelled from the spec: `SLN_RING_NEXT` on a ring that is a doubly-linked list
headed by a sentinel (section 4.7; the ring header is not part of the
sources). The sentinel's link is the chain head itself. The result is `none`
when the pointer is not allocated. -/
def SLN_RING_NEXT (m : cert_mem) (p : cert_ptr) : Option cert_ptr :=
  match p with
  | .sentinel => some m.chain.list_next
  | .elem a => (m.cells a).map (fun c => c.link_next)

/-- Modelled from the spec: `SLN_RING_PREV`, as `SLN_RING_NEXT`. -/
def SLN_RING_PREV (m : cert_mem) (p : cert_ptr) : Option cert_ptr :=
  match p with
  | .sentinel => some m.chain.list_prev
  | .elem a => (m.cells a).map (fun c => c.link_prev)

/-- Store `v` into the `next` link of `p`. -/
def ring_set_next (m : cert_mem) (p v : cert_ptr) : Option cert_mem :=
  match p with
  | .sentinel => some { m with chain := { m.chain with list_next := v } }
  | .elem a =>
    match m.cells a with
    | none => none
    | some c =>
      some { m with cells := fun x => if x = a then some { c with link_next := v }
                                      else m.cells x }

/-- Store `v` into the `prev` link of `p`. -/
def ring_set_prev (m : cert_mem) (p v : cert_ptr) : Option cert_mem :=
  match p with
  | .sentinel => some { m with chain := { m.chain with list_prev := v } }
  | .elem a =>
    match m.cells a with
    | none => none
    | some c =>
      some { m with cells := fun x => if x = a then some { c with link_prev := v }
                                      else m.cells x }

/-- Modelled from the spec: `SLN_RING_REMOVE(ep, link)`, the unlinking of one
element: `NEXT(PREV(ep)) = NEXT(ep); PREV(NEXT(ep)) = PREV(ep)`. -/
def SLN_RING_REMOVE (m : cert_mem) (ep : cert_ptr) : Option cert_mem :=
  match SLN_RING_PREV m ep, SLN_RING_NEXT m ep with
  | some p, some n =>
    match ring_set_next m p n with
    | none => none
    | some m1 =>
      match SLN_RING_NEXT m1 ep, SLN_RING_PREV m1 ep with
      | some n1, some p1 => ring_set_prev m1 n1 p1
      | _, _ => none
  | _, _ => none

/-- Modelled from the spec: the chain's append, a tail insertion into the ring:
`NEXT(nep) = sentinel; PREV(nep) = PREV(sentinel); NEXT(PREV(sentinel)) = nep;
PREV(sentinel) = nep`. -/
def sln_cert_chain_append (m : cert_mem) (nep : Nat) : Option cert_mem :=
  match ring_set_next m (.elem nep) .sentinel with
  | none => none
  | some m1 =>
    match ring_set_prev m1 (.elem nep) m1.chain.list_prev with
    | none => none
    | some m2 =>
      match ring_set_next m2 m2.chain.list_prev (.elem nep) with
      | none => none
      | some m3 => ring_set_prev m3 .sentinel (.elem nep)

/-- Function `sln_cert_create`, with `a` the address returned by `sln_conf_calloc` (which
must not be in use): the certificate is zeroed, handle and depth are set and the
link points to the certificate itself. -/
def sln_cert_create (m : cert_mem) (a : Nat) (x509 : X509) (depth : Int) : Option cert_mem :=
  match m.cells a with
  | some _ => none
  | none =>
    some { m with
      cells := fun x => if x = a then some (cert_fresh x509 depth (.elem a) (.elem a))
                        else m.cells x,
      conf := conf_alloc m.conf }

/-- Function `sln_cert_chain_create`: an empty ring, both head pointers at the sentinel. -/
def sln_cert_chain_create (conf : selene_conf_t) : cert_mem :=
  { chain := { list_next := .sentinel, list_prev := .sentinel },
    cells := fun _ => none, freed := [], conf := conf_alloc conf }

/-- Number of releases made by `sln_cert_name_destroy`: one for each non-null field
and one for the record. -/
def sln_cert_name_destroy_frees (cn : selene_cert_name_t) : Nat :=
  (if cn.commonName.isSome then 1 else 0) + (if cn.emailAddress.isSome then 1 else 0)
  + (if cn.organizationalUnitName.isSome then 1 else 0)
  + (if cn.organizationName.isSome then 1 else 0)
  + (if cn.localityName.isSome then 1 else 0)
  + (if cn.stateOrProvinceName.isSome then 1 else 0)
  + (if cn.countryName.isSome then 1 else 0) + 1

/-- The cache releases of `sln_cert_destroy`, in the order of the source. After
releasing `cache_not_before` and `cache_not_after` the source sets
`cache_fingerprint_md5` to null, as written here. -/
def cert_release_caches (conf : selene_conf_t) (cert : selene_cert_t) :
    selene_conf_t × selene_cert_t :=
  let (conf, cert) :=
    if cert.cache_fingerprint_sha1.isSome then
      (conf_free conf, { cert with cache_fingerprint_sha1 := none })
    else (conf, cert)
  let (conf, cert) :=
    if cert.cache_fingerprint_md5.isSome then
      (conf_free conf, { cert with cache_fingerprint_md5 := none })
    else (conf, cert)
  let (conf, cert) :=
    if cert.cache_not_before.isSome then
      (conf_free conf, { cert with cache_fingerprint_md5 := none })
    else (conf, cert)
  let (conf, cert) :=
    if cert.cache_not_after.isSome then
      (conf_free conf, { cert with cache_fingerprint_md5 := none })
    else (conf, cert)
  let (conf, cert) :=
    match cert.cache_subject with
    | some cn =>
      ({ conf with frees := conf.frees + sln_cert_name_destroy_frees cn },
        { cert with cache_subject := none })
    | none => (conf, cert)
  let (conf, cert) :=
    match cert.cache_issuer with
    | some cn =>
      ({ conf with frees := conf.frees + sln_cert_name_destroy_frees cn },
        { cert with cache_issuer := none })
    | none => (conf, cert)
  match cert.cache_subjectAltNames with
  | some arr =>
    ({ conf with frees := conf.frees + arr.length + 1 },
      { cert with cache_subjectAltNames := none })
  | none => (conf, cert)

/-- Function `sln_cert_destroy` on the certificate at address `a`: unlink it from its
ring, release the caches, free the handle and release the certificate. The
result is `none` when the address or one of its ring neighbours is not
allocated. -/
def sln_cert_destroy (m : cert_mem) (a : Nat) : Option cert_mem :=
  match m.cells a with
  | none => none
  | some _ =>
    match SLN_RING_REMOVE m (.elem a) with
    | none => none
    | some m1 =>
      match m1.cells a with
      | none => none
      | some cert =>
        some { m1 with
          cells := fun x => if x = a then none else m1.cells x,
          freed := m1.freed ++ [a],
          conf := conf_free (cert_release_caches m1.conf cert).1 }

/-- Function `sln_cert_chain_clear`: while the chain is not empty, destroy its first
certificate. One unit of fuel per loop test. -/
def sln_cert_chain_clear : Nat → cert_mem → Option cert_mem
  | 0, _ => none
  | fuel + 1, m =>
    match m.chain.list_next with
    | .sentinel => some m
    | .elem a =>
      match sln_cert_destroy m a with
      | none => none
      | some m1 => sln_cert_chain_clear fuel m1

/-- Function `sln_cert_chain_destroy`: clear, then release the chain head. -/
def sln_cert_chain_destroy (fuel : Nat) (m : cert_mem) : Option cert_mem :=
  match sln_cert_chain_clear fuel m with
  | none => none
  | some m1 => some { m1 with conf := conf_free m1.conf }

/-- The largest `int`. -/
def INT_MAX : Int := 2147483647

/-- The statement `i++` on an `int`; no result on overflow. -/
def int_incr (i : Int) : Option Int := if i < INT_MAX then some (i + 1) else none

/-- The loop of `selene_cert_chain_count`, from pointer `c` with counter `i`. -/
def chain_count_loop (m : cert_mem) : Nat → cert_ptr → Int → Option Int
  | 0, _, _ => none
  | fuel + 1, c, i =>
    match c with
    | .sentinel => some i
    | .elem a =>
      match int_incr i, m.cells a with
      | some i1, some cert => chain_count_loop m fuel cert.link_next i1
      | _, _ => none

/-- Function `selene_cert_chain_count`. -/
def selene_cert_chain_count (fuel : Nat) (m : cert_mem) : Option Int :=
  chain_count_loop m fuel m.chain.list_next 0

/-- The loop of `selene_cert_chain_entry`, from pointer `c` with counter `i`. The
inner result is the returned pointer, `none` for null. -/
def chain_entry_loop (m : cert_mem) (offset : Int) : Nat → cert_ptr → Int → Option (Option Nat)
  | 0, _, _ => none
  | fuel + 1, c, i =>
    match c with
    | .sentinel => some none
    | .elem a =>
      if offset = i then some (some a)
      else if i > offset then some none
      else
        match int_incr i, m.cells a with
        | some i1, some cert => chain_entry_loop m offset fuel cert.link_next i1
        | _, _ => none

/-- Function `selene_cert_chain_entry`. -/
def selene_cert_chain_entry (fuel : Nat) (m : cert_mem) (offset : Int) : Option (Option Nat) :=
  chain_entry_loop m offset fuel m.chain.list_next 0

/-- Depth of the certificate a returned pointer refers to. -/
def entry_depth (m : cert_mem) (r : Option (Option Nat)) : Option Int :=
  match r with
  | some (some a) => (m.cells a).map selene_cert_depth
  | _ => none

/-- Pointer to the first address of a list, the sentinel for the empty list. -/
def head_ptr : List Nat → cert_ptr
  | [] => .sentinel
  | a :: _ => .elem a

/-- Pointer to the last address of a list, the sentinel for the empty list. -/
def last_ptr : List Nat → cert_ptr
  | [] => .sentinel
  | [a] => .elem a
  | _ :: b :: rest => last_ptr (b :: rest)

/-- The cells at the addresses `l` are allocated and linked in this order: each
one's `prev` is its predecessor (`prev` for the first) and each one's `next` is
its successor (the sentinel for the last). -/
def ring_chain (cells : Nat → Option selene_cert_t) : cert_ptr → List Nat → Bool
  | _, [] => true
  | prev, a :: rest =>
    match cells a with
    | none => false
    | some c =>
      decide (c.link_prev = prev) && decide (c.link_next = head_ptr rest)
        && ring_chain cells (.elem a) rest

/-- Well-formed chain holding the certificates at the addresses `l`, in this
order: the head points to the first and the last, the cells are linked in
order both ways, and no address occurs twice. -/
def ring_wf (m : cert_mem) (l : List Nat) : Prop :=
  m.chain.list_next = head_ptr l ∧ m.chain.list_prev = last_ptr l
    ∧ ring_chain m.cells .sentinel l = true ∧ l.Nodup

instance (m : cert_mem) (l : List Nat) : Decidable (ring_wf m l) := by
  unfold ring_wf
  infer_instance

/-- The cells after a tail insertion of the cell `ca` at address `a` behind the
last pointer `lastp`. -/
def cells_snoc (cells : Nat → Option selene_cert_t) (a : Nat) (ca : selene_cert_t)
    (lastp : cert_ptr) : Nat → Option selene_cert_t :=
  fun x =>
    if x = a then some ca
    else if lastp = .elem x then (cells x).map (fun c => { c with link_next := .elem a })
    else cells x

/-- Build a chain from an empty one by creating each certificate (address,
handle, depth) and appending it, in order. -/
def chain_build : cert_mem → List (Nat × X509 × Int) → Option cert_mem
  | m, [] => some m
  | m, (a, x509, depth) :: rest =>
    match sln_cert_create m a x509 depth with
    | none => none
    | some m1 =>
      match sln_cert_chain_append m1 a with
      | none => none
      | some m2 => chain_build m2 rest

/-- A chain of three certificates of depths 0, 1, 2 at addresses 10, 20, 30. -/
def chain_example : Option cert_mem :=
  chain_build (sln_cert_chain_create ⟨0, 0⟩)
    [(10, x509_example, 0), (20, x509_example, 1), (30, x509_example, 2)]

/-- The memory of `chain_example` (the empty chain if building had failed). -/
def chain_example_mem : cert_mem :=
  chain_example.getD (sln_cert_chain_create ⟨0, 0⟩)

/-! ## tools/selene_client.c -/

/-- Function `setblocking`: `opts` is the flag word read with `F_GETFL`, the result is the
word written back with `F_SETFL`, `opts ^ O_NONBLOCK`. The constant `O_NONBLOCK` of
the system headers is a parameter. -/
def setblocking (O_NONBLOCK : Nat) (opts : Nat) : Nat := opts ^^^ O_NONBLOCK

/-- Function `setnonblocking`: the word written back is `opts | O_NONBLOCK`. -/
def setnonblocking (O_NONBLOCK : Nat) (opts : Nat) : Nat := opts ||| O_NONBLOCK

/-! ## Record reader: facts -/

theorem mem_valid_iff (b : Nat) : is_valid_content_type b = 1 ↔ b ∈ [20, 21, 22, 23] := by
  unfold is_valid_content_type
  simp only [List.mem_cons, List.mem_singleton, List.not_mem_nil, or_false]
  split <;> simp_all

theorem decode_length (b0 b1 : Nat) (h0 : b0 < 256) (h1 : b1 < 256) :
    (((b0 % 256) <<< 8) ||| (b1 % 256)) % 65536 = b0 * 256 + b1 := by
  rw [Nat.mod_eq_of_lt h0, Nat.mod_eq_of_lt h1, Nat.shiftLeft_eq]
  have h : 2 ^ 8 * b0 + b1 = 2 ^ 8 * b0 ||| b1 := Nat.mul_add_lt_is_or (by norm_num; exact h1) b0
  rw [Nat.mul_comm b0 (2 ^ 8), ← h]
  omega

theorem read_record (t maj min b3 b4 : Nat) (p rest : List Nat) (baton : sln_native_baton_t)
    (fuel : Nat) (ht : t ∈ [20, 21, 22, 23]) (hmaj : maj < 256) (hmin : min < 256)
    (h3 : b3 < 256) (h4 : b4 < 256) (hp : p.length = b3 * 256 + b4) (hfuel : 5 ≤ fuel) :
    sln_tok_parser_run fuel (t :: maj :: min :: b3 :: b4 :: (p ++ rest)) read_tls
        (rtls_init baton)
      = some (.returned (none, rest,
          { state := .TLS_RS__DONE,
            baton := { baton with in_handshake := baton.in_handshake ++ p },
            content_type := t, version_major := maj, version_minor := min,
            length := b3 * 256 + b4 })) := by
  obtain ⟨n, rfl⟩ : ∃ n, fuel = n + 5 := ⟨fuel - 5, by omega⟩
  have ht256 : t % 256 = t := by
    simp only [List.mem_cons, List.mem_singleton, List.not_mem_nil, or_false] at ht
    omega
  have hv : is_valid_content_type t = 1 := (mem_valid_iff t).mpr ht
  have hlen := decode_length b3 b4 h3 h4
  simp [sln_tok_parser_run, sln_tok_loop, read_tls, rtls_init, tok_byte, ht256, hv,
    Nat.mod_eq_of_lt hmaj, Nat.mod_eq_of_lt hmin, hlen, sln_tok_value_zero]
  rw [if_neg (by omega), if_neg (by omega), if_neg (by omega), ← hp, List.take_left, List.drop_left]

theorem tls_read_cases (fuel : Nat) (hf : 5 ≤ fuel) (X : List Nat) (baton : sln_native_baton_t) :
    ∃ e bb b1, sln_native_io_tls_read (sln_tok_parser_run fuel) { in_enc := X } baton
        = some (.returned (e, { in_enc := bb }, b1)) ∧
      ((e = none ∧ ∃ q, b1.in_handshake = baton.in_handshake ++ q ∧
          X.length = bb.length + 5 + q.length) ∨
       (b1 = baton ∧ ((e ≠ none ∧ X.length = bb.length + 1) ∨
          (e = none ∧ (X.length = bb.length ∨ X.length = bb.length + 1 ∨
            X.length = bb.length + 3 ∨ X.length = bb.length + 5))))) := by
  obtain ⟨n, rfl⟩ : ∃ n, fuel = n + 5 := ⟨fuel - 5, by omega⟩
  rcases X with _ | ⟨t, X⟩
  · refine ⟨none, [], baton, ?_, Or.inr ⟨rfl, Or.inr ⟨rfl, Or.inl rfl⟩⟩⟩
    simp [sln_native_io_tls_read, sln_tok_parser_run, sln_tok_loop, read_tls, rtls_init,
      sln_tok_value_zero]
  · by_cases hv : is_valid_content_type (t % 256) = 0
    · refine ⟨some (selene_error_createf_u .SELENE_EINVAL "Invalid content type: " (t % 256)),
        X, baton, ?_, Or.inr ⟨rfl, Or.inl ⟨by simp, by simp⟩⟩⟩
      simp [sln_native_io_tls_read, sln_tok_parser_run, sln_tok_loop, read_tls, rtls_init,
        sln_tok_value_zero, tok_byte, hv]
    · rcases X with _ | ⟨maj, _ | ⟨min, X⟩⟩
      · refine ⟨none, [], baton, ?_, Or.inr ⟨rfl, Or.inr ⟨rfl, by simp⟩⟩⟩
        simp [sln_native_io_tls_read, sln_tok_parser_run, sln_tok_loop, read_tls, rtls_init,
          sln_tok_value_zero, tok_byte, hv]
      · refine ⟨none, [maj], baton, ?_, Or.inr ⟨rfl, Or.inr ⟨rfl, by simp⟩⟩⟩
        simp [sln_native_io_tls_read, sln_tok_parser_run, sln_tok_loop, read_tls, rtls_init,
          sln_tok_value_zero, tok_byte, hv]
      · rcases X with _ | ⟨b3, _ | ⟨b4, X⟩⟩
        · refine ⟨none, [], baton, ?_, Or.inr ⟨rfl, Or.inr ⟨rfl, by simp⟩⟩⟩
          simp [sln_native_io_tls_read, sln_tok_parser_run, sln_tok_loop, read_tls, rtls_init,
            sln_tok_value_zero, tok_byte, hv]
        · refine ⟨none, [b3], baton, ?_, Or.inr ⟨rfl, Or.inr ⟨rfl, by simp⟩⟩⟩
          simp [sln_native_io_tls_read, sln_tok_parser_run, sln_tok_loop, read_tls, rtls_init,
            sln_tok_value_zero, tok_byte, hv]
        · have hA : ¬ (X.length + 1 + 1 + 1 + 1 < 2) := by omega
          have hB : ¬ (X.length + 1 + 1 < 2) := by omega
          by_cases hlen : X.length < (((b3 % 256) <<< 8) ||| (b4 % 256)) % 65536
          · refine ⟨none, X, baton, ?_, Or.inr ⟨rfl, Or.inr ⟨rfl, by simp⟩⟩⟩
            simp [sln_native_io_tls_read, sln_tok_parser_run, sln_tok_loop, read_tls, rtls_init,
              sln_tok_value_zero, tok_byte, hv, hlen, hA, hB]
          · refine ⟨none, X.drop ((((b3 % 256) <<< 8) ||| (b4 % 256)) % 65536),
              { in_handshake := baton.in_handshake
                  ++ X.take ((((b3 % 256) <<< 8) ||| (b4 % 256)) % 65536),
                peer_version_major := maj % 256, peer_version_minor := min % 256 }, ?_,
              Or.inl ⟨rfl, _, rfl, ?_⟩⟩
            · simp [sln_native_io_tls_read, sln_tok_parser_run, sln_tok_loop, read_tls,
                rtls_init, sln_tok_value_zero, tok_byte, hv, hlen, hA, hB]
            · simp only [List.length_cons, List.length_drop, List.length_take]
              omega

theorem valid_mod (t : Nat) (ht : t ∈ [20, 21, 22, 23]) :
    t % 256 = t ∧ is_valid_content_type t = 1 := by
  refine ⟨?_, (mem_valid_iff t).mpr ht⟩
  simp only [List.mem_cons, List.mem_singleton, List.not_mem_nil, or_false] at ht
  omega

/-- A read that finds fewer than two bytes after a valid content type consumes
that byte and suspends. -/
theorem read_suspend1 (fuel : Nat) (hf : 5 ≤ fuel) (t : Nat) (r : List Nat)
    (baton : sln_native_baton_t) (ht : t ∈ [20, 21, 22, 23]) (hr : r.length < 2) :
    sln_native_io_tls_read (sln_tok_parser_run fuel) { in_enc := t :: r } baton
      = some (.returned (none, { in_enc := r }, baton)) := by
  obtain ⟨n, rfl⟩ : ∃ n, fuel = n + 5 := ⟨fuel - 5, by omega⟩
  obtain ⟨h1, h2⟩ := valid_mod t ht
  simp [sln_native_io_tls_read, sln_tok_parser_run, sln_tok_loop, read_tls, rtls_init,
    sln_tok_value_zero, tok_byte, h1, h2, hr]

/-- A read that finds fewer than two bytes after content type and version
consumes those three bytes and suspends. -/
theorem read_suspend3 (fuel : Nat) (hf : 5 ≤ fuel) (t maj min : Nat) (r : List Nat)
    (baton : sln_native_baton_t) (ht : t ∈ [20, 21, 22, 23]) (hr : r.length < 2) :
    sln_native_io_tls_read (sln_tok_parser_run fuel) { in_enc := t :: maj :: min :: r } baton
      = some (.returned (none, { in_enc := r }, baton)) := by
  obtain ⟨n, rfl⟩ : ∃ n, fuel = n + 5 := ⟨fuel - 5, by omega⟩
  obtain ⟨h1, h2⟩ := valid_mod t ht
  have hA : ¬ (r.length + 1 + 1 < 2) := by omega
  simp [sln_native_io_tls_read, sln_tok_parser_run, sln_tok_loop, read_tls, rtls_init,
    sln_tok_value_zero, tok_byte, h1, h2, hr, hA]

/-- A read that finds a complete header but too few payload bytes consumes the
five header bytes and suspends. -/
theorem read_suspend5 (fuel : Nat) (hf : 5 ≤ fuel) (t maj min b3 b4 : Nat) (r : List Nat)
    (baton : sln_native_baton_t) (ht : t ∈ [20, 21, 22, 23]) (h3 : b3 < 256) (h4 : b4 < 256)
    (hr : r.length < b3 * 256 + b4) :
    sln_native_io_tls_read (sln_tok_parser_run fuel)
        { in_enc := t :: maj :: min :: b3 :: b4 :: r } baton
      = some (.returned (none, { in_enc := r }, baton)) := by
  obtain ⟨n, rfl⟩ : ∃ n, fuel = n + 5 := ⟨fuel - 5, by omega⟩
  obtain ⟨h1, h2⟩ := valid_mod t ht
  have hA : ¬ (r.length + 1 + 1 + 1 + 1 < 2) := by omega
  have hB : ¬ (r.length + 1 + 1 < 2) := by omega
  simp [sln_native_io_tls_read, sln_tok_parser_run, sln_tok_loop, read_tls, rtls_init,
    sln_tok_value_zero, tok_byte, h1, h2, hr, hA, hB, decode_length b3 b4 h3 h4]

/-- A read of a complete valid record followed by `rest`. -/
theorem read_done (fuel : Nat) (hf : 5 ≤ fuel) (t maj min b3 b4 : Nat) (p rest : List Nat)
    (baton : sln_native_baton_t) (ht : t ∈ [20, 21, 22, 23]) (hmaj : maj < 256)
    (hmin : min < 256) (h3 : b3 < 256) (h4 : b4 < 256) (hp : p.length = b3 * 256 + b4) :
    sln_native_io_tls_read (sln_tok_parser_run fuel)
        { in_enc := t :: maj :: min :: b3 :: b4 :: (p ++ rest) } baton
      = some (.returned (none, { in_enc := rest },
          { in_handshake := baton.in_handshake ++ p,
            peer_version_major := maj, peer_version_minor := min })) := by
  have h := read_record t maj min b3 b4 p rest baton fuel ht hmaj hmin h3 h4 hp hf
  simp only [sln_native_io_tls_read, h, if_true]

/-- A read on an empty `in_enc` changes nothing. -/
theorem read_empty (fuel : Nat) (hf : 5 ≤ fuel) (baton : sln_native_baton_t) :
    sln_native_io_tls_read (sln_tok_parser_run fuel) { in_enc := [] } baton
      = some (.returned (none, { in_enc := [] }, baton)) := by
  obtain ⟨n, rfl⟩ : ∃ n, fuel = n + 5 := ⟨fuel - 5, by omega⟩
  simp [sln_native_io_tls_read, sln_tok_parser_run, sln_tok_loop, read_tls, rtls_init,
    sln_tok_value_zero]

theorem record_bytes_lt (L : Nat) (hL : L ≤ 65535) :
    L / 256 < 256 ∧ L % 256 < 256 ∧ (L / 256) * 256 + L % 256 = L := by
  omega

/-- The first read of a proper, non-empty prefix of a valid record consumes the
complete header fields (1, 3 or 5 bytes), returns success and leaves the baton
as it was. -/
theorem read_record_prefix (fuel : Nat) (hf : 5 ≤ fuel) (t maj min L : Nat) (p : List Nat)
    (k : Nat) (baton : sln_native_baton_t) (ht : t ∈ [20, 21, 22, 23]) (hL : L ≤ 65535)
    (hp : p.length = L) (hk0 : 0 < k) (hk : k < (tls_record t maj min L p).length) :
    ∃ c, (c = 1 ∨ c = 3 ∨ c = 5) ∧ c ≤ k ∧
      sln_native_io_tls_read (sln_tok_parser_run fuel)
          { in_enc := (tls_record t maj min L p).take k } baton
        = some (.returned (none, { in_enc := ((tls_record t maj min L p).take k).drop c },
            baton)) := by
  obtain ⟨h3, h4, hsum⟩ := record_bytes_lt L hL
  simp only [tls_record, List.length_cons] at hk
  rcases k with _ | _ | _ | _ | _ | k
  · omega
  · exact ⟨1, Or.inl rfl, by omega, read_suspend1 fuel hf t [] baton ht (by simp)⟩
  · exact ⟨1, Or.inl rfl, by omega, read_suspend1 fuel hf t [maj] baton ht (by simp)⟩
  · exact ⟨3, Or.inr (Or.inl rfl), by omega, read_suspend3 fuel hf t maj min [] baton ht (by simp)⟩
  · exact ⟨3, Or.inr (Or.inl rfl), by omega,
      read_suspend3 fuel hf t maj min [L / 256] baton ht (by simp)⟩
  · refine ⟨5, Or.inr (Or.inr rfl), by omega, ?_⟩
    have := read_suspend5 fuel hf t maj min (L / 256) (L % 256) (p.take k) baton ht h3 h4
      (by rw [List.length_take]; omega)
    simpa [tls_record] using this

theorem feed_whole_record (fuel : Nat) (hf : 5 ≤ fuel) (t maj min L : Nat) (p : List Nat)
    (baton : sln_native_baton_t) (ht : t ∈ [20, 21, 22, 23]) (hmaj : maj < 256)
    (hmin : min < 256) (hL : L ≤ 65535) (hp : p.length = L) :
    feed_whole fuel { in_enc := [] } baton (tls_record t maj min L p)
      = some (.returned ([], { in_enc := [] },
          { in_handshake := baton.in_handshake ++ p,
            peer_version_major := maj, peer_version_minor := min })) := by
  obtain ⟨h3, h4, hsum⟩ := record_bytes_lt L hL
  have hread := read_done fuel hf t maj min (L / 256) (L % 256) p [] baton ht hmaj hmin
    h3 h4 (by omega)
  rw [List.append_nil] at hread
  simp [feed_whole, feed_chunks, push_in_enc, tls_record, hread]

theorem feed_split_zero (fuel : Nat) (hf : 5 ≤ fuel) (baton : sln_native_baton_t)
    (B : List Nat) :
    feed_split fuel { in_enc := [] } baton B 0 = feed_whole fuel { in_enc := [] } baton B := by
  have h0 := read_empty fuel hf baton
  simp only [feed_split, feed_whole, List.take_zero, List.drop_zero]
  rw [feed_chunks]
  simp only [push_in_enc, List.append_nil, h0]
  cases h : feed_chunks fuel { in_enc := [] } baton [B] with
  | none => rfl
  | some r =>
    cases r with
    | aborted => rfl
    | returned a => obtain ⟨es, s2, b2⟩ := a; simp

theorem feed_split_end (fuel : Nat) (hf : 5 ≤ fuel) (t maj min L : Nat) (p : List Nat)
    (baton : sln_native_baton_t) (ht : t ∈ [20, 21, 22, 23]) (hmaj : maj < 256)
    (hmin : min < 256) (hL : L ≤ 65535) (hp : p.length = L) :
    feed_split fuel { in_enc := [] } baton (tls_record t maj min L p)
        (tls_record t maj min L p).length
      = feed_whole fuel { in_enc := [] } baton (tls_record t maj min L p) := by
  rw [feed_whole_record fuel hf t maj min L p baton ht hmaj hmin hL hp]
  obtain ⟨h3, h4, hsum⟩ := record_bytes_lt L hL
  have hread := read_done fuel hf t maj min (L / 256) (L % 256) p [] baton ht hmaj hmin
    h3 h4 (by omega)
  rw [List.append_nil] at hread
  have h0 := read_empty fuel hf ⟨baton.in_handshake ++ p, maj, min⟩
  simp [feed_split, feed_chunks, push_in_enc, tls_record, hread, h0]

theorem feed_split_inside (fuel : Nat) (hf : 5 ≤ fuel) (t maj min L : Nat) (p : List Nat)
    (k : Nat) (baton : sln_native_baton_t) (ht : t ∈ [20, 21, 22, 23]) (hmaj : maj < 256)
    (hmin : min < 256) (hL : L ≤ 65535) (hp : p.length = L) (hk0 : 0 < k)
    (hk : k < (tls_record t maj min L p).length) :
    feed_split fuel { in_enc := [] } baton (tls_record t maj min L p) k
      ≠ feed_whole fuel { in_enc := [] } baton (tls_record t maj min L p) := by
  rw [feed_whole_record fuel hf t maj min L p baton ht hmaj hmin hL hp]
  obtain ⟨c, hc, hck, hfirst⟩ := read_record_prefix fuel hf t maj min L p k baton ht hL hp hk0 hk
  have hlenB : (tls_record t maj min L p).length = L + 5 := by simp [tls_record, hp]
  have hjoin : ((tls_record t maj min L p).take k).drop c ++ (tls_record t maj min L p).drop k
      = (tls_record t maj min L p).drop c := by
    rw [← List.drop_append_of_le_length (by rw [List.length_take]; omega),
      List.take_append_drop]
  obtain ⟨e, bb, b1, hsecond, hshape⟩ :=
    tls_read_cases fuel hf ((tls_record t maj min L p).drop c) baton
  have hlenY : ((tls_record t maj min L p).drop c).length = L + 5 - c := by
    rw [List.length_drop, hlenB]
  simp only [feed_split, feed_chunks, push_in_enc, List.nil_append, hfirst, hjoin, hsecond]
  intro heq
  simp only [Option.toList_none, List.nil_append, List.append_nil, Option.some.injEq,
    sln_result.returned.injEq, Prod.mk.injEq, selene_t.mk.injEq] at heq
  obtain ⟨he, hbb, hb1⟩ := heq
  have he' : e = none := by cases e <;> simp_all
  subst hbb
  rcases hshape with ⟨_, q, hq, hlen⟩ | ⟨hb, hrest⟩
  · rw [hb1] at hq
    have hqp : p = q := List.append_cancel_left hq
    subst hqp
    simp only [List.length_nil] at hlen
    omega
  · rw [hb1] at hb
    have hpnil : p = [] := by
      have := congrArg sln_native_baton_t.in_handshake hb
      simpa using this
    subst hpnil
    simp only [List.length_nil] at hp hrest
    rcases hrest with ⟨hne, _⟩ | ⟨_, hrest⟩
    · exact hne he'
    · omega

/-! ## Record reader: claims -/

/-- C1: a byte delivered to `read_tls` in state CONTENT_TYPE that is not 20, 21,
22 or 23 makes the step fail with kind EINVAL and message "Invalid content
type: " followed by the byte in decimal; `sln_native_io_tls_read` hands the error
that comes back from the driver to its caller unchanged, whatever the driver;
a byte that is 20, 21, 22 or 23 is stored as content type and the step moves to
VERSION requesting 2 bytes. -/
theorem C1_content_type_step (v : sln_tok_value_t) (rtls : rtls_baton_t) (b : Nat)
    (hstate : rtls.state = .TLS_RS_CONTENT_TYPE) (hb : b < 256) (hv : tok_byte v 0 = b) :
    (b ∉ [20, 21, 22, 23] →
      read_tls v rtls = .returned
        (some { err := .SELENE_EINVAL, msg := "Invalid content type: " ++ Nat.repr b },
         v, { rtls with content_type := b }))
    ∧ (∀ (tok : sln_tok_driver rtls_baton_t) (s : selene_t) (baton : sln_native_baton_t)
          (e : selene_error_t) (bb : sln_brigade_t) (r : rtls_baton_t),
          tok s.in_enc read_tls (rtls_init baton) = some (.returned (some e, bb, r)) →
          sln_native_io_tls_read tok s baton
            = some (.returned (some e, { s with in_enc := bb }, r.baton)))
    ∧ (b ∈ [20, 21, 22, 23] →
      read_tls v rtls = .returned
        (none, { v with next := .TOK_COPY_BYTES, wantlen := 2 },
         { rtls with content_type := b, state := .TLS_RS_VERSION })) := by
  have hmod : b % 256 = b := Nat.mod_eq_of_lt hb
  refine ⟨?_, ?_, ?_⟩
  · intro hnot
    have h0 : is_valid_content_type b = 0 := by
      have := (mem_valid_iff b).not.mpr hnot
      unfold is_valid_content_type at this ⊢
      split <;> simp_all
    simp only [read_tls, hstate, hv, hmod, h0, if_true, selene_error_createf_u]
  · intro tok s baton e bb r h
    simp only [sln_native_io_tls_read, h]
  · intro hin
    have h1 : is_valid_content_type b = 1 := (mem_valid_iff b).mpr hin
    simp [read_tls, hstate, hv, hmod, h1]

/-- C1 at 0xFF: the step is rejected with a message ending in 255, and with the
modelled driver the read of FF 03 01 00 00 returns that error; at 22 the step
is accepted. -/
theorem C1_content_type_step_witness :
    (read_tls { next := .TOK_COPY_BYTES, wantlen := 1, bytes := [255], bb := [] }
        { state := .TLS_RS_CONTENT_TYPE, baton := ⟨[], 0, 0⟩, content_type := 0,
          version_major := 0, version_minor := 0, length := 0 }
      = .returned (some { err := .SELENE_EINVAL, msg := "Invalid content type: 255" },
          { next := .TOK_COPY_BYTES, wantlen := 1, bytes := [255], bb := [] },
          { state := .TLS_RS_CONTENT_TYPE, baton := ⟨[], 0, 0⟩, content_type := 255,
            version_major := 0, version_minor := 0, length := 0 }))
    ∧ sln_native_io_tls_read (sln_tok_parser_run 5) { in_enc := [255, 3, 1, 0, 0] } ⟨[], 0, 0⟩
      = some (.returned (some { err := .SELENE_EINVAL, msg := "Invalid content type: 255" },
          { in_enc := [3, 1, 0, 0] }, ⟨[], 0, 0⟩))
    ∧ read_tls { next := .TOK_COPY_BYTES, wantlen := 1, bytes := [22], bb := [] }
        { state := .TLS_RS_CONTENT_TYPE, baton := ⟨[], 0, 0⟩, content_type := 0,
          version_major := 0, version_minor := 0, length := 0 }
      = .returned (none,
          { next := .TOK_COPY_BYTES, wantlen := 2, bytes := [22], bb := [] },
          { state := .TLS_RS_VERSION, baton := ⟨[], 0, 0⟩, content_type := 22,
            version_major := 0, version_minor := 0, length := 0 }) :=
  ⟨(C1_content_type_step { next := .TOK_COPY_BYTES, wantlen := 1, bytes := [255], bb := [] }
      { state := .TLS_RS_CONTENT_TYPE, baton := ⟨[], 0, 0⟩, content_type := 0,
        version_major := 0, version_minor := 0, length := 0 } 255 rfl (by decide) rfl).1
      (by decide),
   (C1_content_type_step { next := .TOK_COPY_BYTES, wantlen := 1, bytes := [255], bb := [] }
      { state := .TLS_RS_CONTENT_TYPE, baton := ⟨[], 0, 0⟩, content_type := 0,
        version_major := 0, version_minor := 0, length := 0 } 255 rfl (by decide) rfl).2.1
      (sln_tok_parser_run 5) { in_enc := [255, 3, 1, 0, 0] } ⟨[], 0, 0⟩
      { err := .SELENE_EINVAL, msg := "Invalid content type: 255" } [3, 1, 0, 0]
      { state := .TLS_RS_CONTENT_TYPE, baton := ⟨[], 0, 0⟩, content_type := 255,
        version_major := 0, version_minor := 0, length := 0 } (by decide),
   (C1_content_type_step { next := .TOK_COPY_BYTES, wantlen := 1, bytes := [22], bb := [] }
      { state := .TLS_RS_CONTENT_TYPE, baton := ⟨[], 0, 0⟩, content_type := 0,
        version_major := 0, version_minor := 0, length := 0 } 22 rfl (by decide) rfl).2.2
      (by decide)⟩

/-- C2: with `in_enc` holding exactly one record (content type in 20..23,
version bytes, length L up to 65535 as two big-endian bytes, L payload bytes),
the driver run ends in state DONE with decoded length
`byte3 * 256 + byte4 = L`, and `sln_native_io_tls_read` returns success with the
payload appended to the handshake brigade, `in_enc` drained and the peer version
set to the record version. -/
theorem C2_valid_record_read (t maj min L : Nat) (p : List Nat) (fuel : Nat) (s : selene_t)
    (baton : sln_native_baton_t) (ht : t ∈ [20, 21, 22, 23]) (hmaj : maj < 256)
    (hmin : min < 256) (hL : L ≤ 65535) (hp : p.length = L) (hfuel : 5 ≤ fuel)
    (hs : s.in_enc = tls_record t maj min L p) :
    sln_tok_parser_run fuel s.in_enc read_tls (rtls_init baton)
      = some (.returned (none, [],
          { state := .TLS_RS__DONE,
            baton := { baton with in_handshake := baton.in_handshake ++ p },
            content_type := t, version_major := maj, version_minor := min,
            length := (L / 256) * 256 + L % 256 }))
    ∧ (L / 256) * 256 + L % 256 = L
    ∧ sln_native_io_tls_read (sln_tok_parser_run fuel) s baton
      = some (.returned (none, { s with in_enc := [] },
          { in_handshake := baton.in_handshake ++ p,
            peer_version_major := maj, peer_version_minor := min })) := by
  obtain ⟨h3, h4, hsum⟩ := record_bytes_lt L hL
  have hp2 : p.length = (L / 256) * 256 + L % 256 := by omega
  have hrun := read_record t maj min (L / 256) (L % 256) p [] baton fuel ht hmaj hmin h3 h4
    hp2 hfuel
  have hread := read_done fuel hfuel t maj min (L / 256) (L % 256) p [] baton ht hmaj hmin
    h3 h4 hp2
  rw [List.append_nil] at hrun hread
  obtain ⟨enc⟩ := s
  simp only [tls_record] at hs
  subst hs
  exact ⟨hrun, hsum, hread⟩

/-- C2 on the record 16 03 01 00 05 01 02 03 04 05. -/
theorem C2_valid_record_read_witness :
    sln_tok_parser_run 5 [22, 3, 1, 0, 5, 1, 2, 3, 4, 5] read_tls (rtls_init ⟨[], 0, 0⟩)
      = some (.returned (none, [],
          { state := .TLS_RS__DONE, baton := ⟨[1, 2, 3, 4, 5], 0, 0⟩,
            content_type := 22, version_major := 3, version_minor := 1, length := 5 }))
    ∧ sln_native_io_tls_read (sln_tok_parser_run 5)
        { in_enc := [22, 3, 1, 0, 5, 1, 2, 3, 4, 5] } ⟨[], 0, 0⟩
      = some (.returned (none, { in_enc := [] }, ⟨[1, 2, 3, 4, 5], 3, 1⟩)) :=
  have h := C2_valid_record_read 22 3 1 5 [1, 2, 3, 4, 5] 5
    { in_enc := [22, 3, 1, 0, 5, 1, 2, 3, 4, 5] } ⟨[], 0, 0⟩ (by decide) (by decide)
    (by decide) (by decide) rfl (by decide) rfl
  ⟨h.1, h.2.2⟩

/-- C3, refuted as stated: the record 16 03 01 00 05 01 02 03 04 05 pushed whole
is read without error and fills the handshake brigade, while split after its
first byte the second read returns EINVAL "Invalid content type: 3" and the
handshake brigade stays empty; fed one byte at a time, nine of the ten reads
return an error. -/
theorem C3_split_counterexample :
    feed_whole 5 { in_enc := [] } ⟨[], 0, 0⟩ [22, 3, 1, 0, 5, 1, 2, 3, 4, 5]
      = some (.returned ([], { in_enc := [] }, ⟨[1, 2, 3, 4, 5], 3, 1⟩))
    ∧ feed_split 5 { in_enc := [] } ⟨[], 0, 0⟩ [22, 3, 1, 0, 5, 1, 2, 3, 4, 5] 1
      = some (.returned ([{ err := .SELENE_EINVAL, msg := "Invalid content type: 3" }],
          { in_enc := [1, 0, 5, 1, 2, 3, 4, 5] }, ⟨[], 0, 0⟩))
    ∧ feed_split 5 { in_enc := [] } ⟨[], 0, 0⟩ [22, 3, 1, 0, 5, 1, 2, 3, 4, 5] 1
      ≠ feed_whole 5 { in_enc := [] } ⟨[], 0, 0⟩ [22, 3, 1, 0, 5, 1, 2, 3, 4, 5]
    ∧ feed_chunks 5 { in_enc := [] } ⟨[], 0, 0⟩
          [[22], [3], [1], [0], [5], [1], [2], [3], [4], [5]]
      = some (.returned
          ([{ err := .SELENE_EINVAL, msg := "Invalid content type: 3" },
           { err := .SELENE_EINVAL, msg := "Invalid content type: 1" },
           { err := .SELENE_EINVAL, msg := "Invalid content type: 0" },
           { err := .SELENE_EINVAL, msg := "Invalid content type: 5" },
           { err := .SELENE_EINVAL, msg := "Invalid content type: 1" },
           { err := .SELENE_EINVAL, msg := "Invalid content type: 2" },
           { err := .SELENE_EINVAL, msg := "Invalid content type: 3" },
           { err := .SELENE_EINVAL, msg := "Invalid content type: 4" },
           { err := .SELENE_EINVAL, msg := "Invalid content type: 5" }],
           { in_enc := [] }, ⟨[], 0, 0⟩)) := by
  refine ⟨by decide, by decide, by decide, by decide⟩

/-- C3, amended: starting from an empty `in_enc`, a split at position 0 of any
byte stream gives the same final state and errors as feeding it whole; for a
single valid record a split at k gives the same result as feeding it whole
exactly when k = 0 or k is the end of the record. Every call of
`sln_native_io_tls_read` starts again in INIT, so a split inside the record
makes the second read parse the remaining bytes as a new record. -/
theorem C3_split_at_record_boundary (fuel : Nat) (hf : 5 ≤ fuel) (s : selene_t)
    (baton : sln_native_baton_t) (hs : s.in_enc = []) :
    (∀ B : List Nat, feed_split fuel s baton B 0 = feed_whole fuel s baton B)
    ∧ (∀ (t maj min L : Nat) (p : List Nat) (k : Nat),
        t ∈ [20, 21, 22, 23] → maj < 256 → min < 256 → L ≤ 65535 → p.length = L →
        k ≤ (tls_record t maj min L p).length →
        (feed_split fuel s baton (tls_record t maj min L p) k
            = feed_whole fuel s baton (tls_record t maj min L p)
          ↔ k = 0 ∨ k = (tls_record t maj min L p).length)) := by
  obtain ⟨enc⟩ := s
  simp only at hs
  subst hs
  refine ⟨feed_split_zero fuel hf baton, ?_⟩
  intro t maj min L p k ht hmaj hmin hL hp hk
  constructor
  · intro heq
    by_contra hne
    have hk0 : 0 < k := by omega
    have hk1 : k < (tls_record t maj min L p).length := by omega
    exact feed_split_inside fuel hf t maj min L p k baton ht hmaj hmin hL hp hk0 hk1 heq
  · rintro (rfl | rfl)
    · exact feed_split_zero fuel hf baton _
    · exact feed_split_end fuel hf t maj min L p baton ht hmaj hmin hL hp

/-- C3 amended, on the record 16 03 01 00 05 01 02 03 04 05: the splits at 0 and
at 10 agree with feeding it whole, the split at 3 does not. -/
theorem C3_split_at_record_boundary_witness :
    feed_split 5 { in_enc := [] } ⟨[], 0, 0⟩ (tls_record 22 3 1 5 [1, 2, 3, 4, 5]) 10
        = feed_whole 5 { in_enc := [] } ⟨[], 0, 0⟩ (tls_record 22 3 1 5 [1, 2, 3, 4, 5])
    ∧ ¬ feed_split 5 { in_enc := [] } ⟨[], 0, 0⟩ (tls_record 22 3 1 5 [1, 2, 3, 4, 5]) 3
        = feed_whole 5 { in_enc := [] } ⟨[], 0, 0⟩ (tls_record 22 3 1 5 [1, 2, 3, 4, 5]) :=
  have h := (C3_split_at_record_boundary 5 (by decide) { in_enc := [] } ⟨[], 0, 0⟩ rfl).2
    22 3 1 5 [1, 2, 3, 4, 5]
  ⟨(h 10 (by decide) (by decide) (by decide) (by decide) rfl (by decide)).2
      (Or.inr (by decide)),
   fun heq => absurd
     ((h 3 (by decide) (by decide) (by decide) (by decide) rfl (by decide)).1 heq)
     (by decide)⟩

/-- C4, refuted as stated: after reading 16 03 01 00 00 and then 16 03 03 00 00
on one session, both reaching DONE, the peer version is (3,3), the version of
the second record, not (3,1). -/
theorem C4_peer_version_counterexample :
    feed_chunks 5 { in_enc := [] } ⟨[], 0, 0⟩ [[22, 3, 1, 0, 0]]
      = some (.returned ([], { in_enc := [] }, ⟨[], 3, 1⟩))
    ∧ feed_chunks 5 { in_enc := [] } ⟨[], 0, 0⟩ [[22, 3, 1, 0, 0], [22, 3, 3, 0, 0]]
      = some (.returned ([], { in_enc := [] }, ⟨[], 3, 3⟩))
    ∧ peer_version ⟨[], 3, 3⟩ ≠ (3, 1) := by
  refine ⟨by decide, by decide, by decide⟩

/-- C4, amended: when two valid records R1 (version v1) and R2 (version v2) are
read in succession on one session, the first read reaches DONE and records v1,
and the second read reaches DONE and overwrites it: the peer version after the
second read is v2. -/
theorem C4_peer_version_latest (fuel : Nat) (hf : 5 ≤ fuel) (baton : sln_native_baton_t)
    (t1 maj1 min1 L1 : Nat) (p1 : List Nat) (t2 maj2 min2 L2 : Nat) (p2 : List Nat)
    (ht1 : t1 ∈ [20, 21, 22, 23]) (hmaj1 : maj1 < 256) (hmin1 : min1 < 256)
    (hL1 : L1 ≤ 65535) (hp1 : p1.length = L1)
    (ht2 : t2 ∈ [20, 21, 22, 23]) (hmaj2 : maj2 < 256) (hmin2 : min2 < 256)
    (hL2 : L2 ≤ 65535) (hp2 : p2.length = L2) :
    sln_native_io_tls_read (sln_tok_parser_run fuel)
        (push_in_enc { in_enc := [] } (tls_record t1 maj1 min1 L1 p1)) baton
      = some (.returned (none, { in_enc := [] },
          { in_handshake := baton.in_handshake ++ p1,
            peer_version_major := maj1, peer_version_minor := min1 }))
    ∧ sln_native_io_tls_read (sln_tok_parser_run fuel)
        (push_in_enc { in_enc := [] } (tls_record t2 maj2 min2 L2 p2))
        { in_handshake := baton.in_handshake ++ p1,
          peer_version_major := maj1, peer_version_minor := min1 }
      = some (.returned (none, { in_enc := [] },
          { in_handshake := baton.in_handshake ++ p1 ++ p2,
            peer_version_major := maj2, peer_version_minor := min2 }))
    ∧ feed_chunks fuel { in_enc := [] } baton
        [tls_record t1 maj1 min1 L1 p1, tls_record t2 maj2 min2 L2 p2]
      = some (.returned ([], { in_enc := [] },
          { in_handshake := baton.in_handshake ++ p1 ++ p2,
            peer_version_major := maj2, peer_version_minor := min2 })) := by
  obtain ⟨h3, h4, hsum⟩ := record_bytes_lt L1 hL1
  obtain ⟨h3', h4', hsum'⟩ := record_bytes_lt L2 hL2
  have hr1 := read_done fuel hf t1 maj1 min1 (L1 / 256) (L1 % 256) p1 [] baton ht1 hmaj1
    hmin1 h3 h4 (by omega)
  have hr2 := read_done fuel hf t2 maj2 min2 (L2 / 256) (L2 % 256) p2 []
    ⟨baton.in_handshake ++ p1, maj1, min1⟩ ht2 hmaj2 hmin2 h3' h4' (by omega)
  rw [List.append_nil] at hr1 hr2
  refine ⟨?_, ?_, ?_⟩
  · simpa [push_in_enc, tls_record] using hr1
  · simpa [push_in_enc, tls_record] using hr2
  · simp [feed_chunks, push_in_enc, tls_record, hr1, hr2]

/-- C4 amended, on 16 03 01 00 00 followed by 16 03 03 00 00: the final peer
version is (3,3). -/
theorem C4_peer_version_latest_witness :
    feed_chunks 5 { in_enc := [] } ⟨[], 0, 0⟩
        [tls_record 22 3 1 0 [], tls_record 22 3 3 0 []]
      = some (.returned ([], { in_enc := [] }, ⟨[], 3, 3⟩)) :=
  (C4_peer_version_latest 5 (by decide) ⟨[], 0, 0⟩ 22 3 1 0 [] 22 3 3 0 []
    (by decide) (by decide) (by decide) (by decide) rfl
    (by decide) (by decide) (by decide) (by decide) rfl).2.2

/-! ## Fingerprint encoding: facts -/

set_option maxRecDepth 100000 in
theorem nibble_hi : ∀ b < 256, (b &&& 0xf0) >>> 4 = b / 16 := by decide

theorem nibble_lo (b : Nat) : b &&& 0x0f = b % 16 := Nat.and_pow_two_sub_one_eq_mod b 4

theorem hex_at_digit : ∀ d < 16, hex_at d = hex_digit d := by decide

theorem hex_digit_props : ∀ d < 16, is_upper_hex (hex_digit d) = true ∧ hex_digit d ≠ ':' ∧
    hex_digit d ≠ NUL ∧ hex_value (hex_digit d) = some d := by decide

theorem fp_body_length (md : List Nat) : (fp_body md).length = 3 * md.length := by
  induction md with
  | nil => rfl
  | cons b rest ih =>
    simp only [fp_body, List.map_cons, List.flatten_cons, List.length_append, hex_pair,
      List.length_cons, List.length_nil] at ih ⊢
    omega

theorem fp_body_append (l1 l2 : List Nat) : fp_body (l1 ++ l2) = fp_body l1 ++ fp_body l2 := by
  simp [fp_body]

theorem set3_append (A R : List Char) (n : Nat) (x y z : Char) (hA : A.length = 3 * n)
    (hR : 3 ≤ R.length) :
    (((A ++ R).set (3 * n) x).set (3 * n + 1) y).set (3 * n + 2) z
      = A ++ [x, y, z] ++ R.drop 3 := by
  rcases R with _ | ⟨r0, _ | ⟨r1, _ | ⟨r2, R⟩⟩⟩ <;> simp at hR
  rw [List.set_append_right _ _ (by omega), List.set_append_right _ _ (by omega),
    List.set_append_right _ _ (by omega)]
  have h0 : 3 * n - A.length = 0 := by omega
  have h1 : 3 * n + 1 - A.length = 1 := by omega
  have h2 : 3 * n + 2 - A.length = 2 := by omega
  rw [h0, h1, h2]
  simp

theorem fingerprint_fill (md : List Nat) (stack : List Char) (hbytes : ∀ b ∈ md, b < 256)
    (n : Nat) (hn : n ≤ md.length) (hstack : 3 * md.length ≤ stack.length) :
    (List.range n).foldl (fingerprint_step md) stack
      = fp_body (md.take n) ++ stack.drop (3 * n) := by
  induction n with
  | zero => simp [fp_body]
  | succ n ih =>
    have hlt : n < md.length := by omega
    rw [List.range_succ, List.foldl_append, ih (by omega)]
    simp only [List.foldl_cons, List.foldl_nil, fingerprint_step]
    rw [set3_append _ _ n _ _ _ (by rw [fp_body_length, List.length_take]; congr 1; omega)
      (by rw [List.length_drop]; omega)]
    have hb : md.getD n 0 = md[n] := by simp [List.getD_eq_getElem?_getD, hlt]
    have hb256 : md[n] < 256 := hbytes _ (List.getElem_mem hlt)
    have htake : md.take (n + 1) = md.take n ++ [md[n]] := by
      rw [List.take_succ]; simp [List.getElem?_eq_getElem hlt]
    rw [htake, fp_body_append, hb, nibble_hi _ hb256, nibble_lo,
      hex_at_digit _ (by omega), hex_at_digit _ (by omega), List.drop_drop]
    have h3 : 3 * n + 3 = 3 * (n + 1) := by ring
    have h3b : 3 + 3 * n = 3 * (n + 1) := by ring
    simp [fp_body, hex_pair, h3, h3b]

theorem intercalate_cons_cons (x y : List Char) (l : List (List Char)) :
    [':'].intercalate (x :: y :: l) = x ++ ':' :: [':'].intercalate (y :: l) := by
  simp [List.intercalate, List.intersperse]

theorem fp_body_eq (md : List Nat) (h : md ≠ []) :
    fp_body md = [':'].intercalate (md.map hex_pair) ++ [':'] := by
  induction md with
  | nil => exact absurd rfl h
  | cons b rest ih =>
    cases rest with
    | nil => simp [fp_body, List.intercalate, List.intersperse]
    | cons c rest =>
      have := ih (by simp)
      simp only [List.map_cons, intercalate_cons_cons] at this ⊢
      simp only [fp_body, List.map_cons, List.flatten_cons] at this ⊢
      rw [this]
      simp

theorem hex_pair_not_nul (b : Nat) (hb : b < 256) : ∀ c ∈ hex_pair b, c ≠ NUL ∧ c ≠ ':' := by
  intro c hc
  simp only [hex_pair, List.mem_cons, List.mem_singleton, List.not_mem_nil, or_false] at hc
  rcases hc with rfl | rfl
  · exact ⟨(hex_digit_props _ (by omega)).2.2.1, (hex_digit_props _ (by omega)).2.1⟩
  · exact ⟨(hex_digit_props _ (by omega)).2.2.1, (hex_digit_props _ (by omega)).2.1⟩

theorem intercalate_not_nul (md : List Nat) (hbytes : ∀ b ∈ md, b < 256) :
    ∀ c ∈ [':'].intercalate (md.map hex_pair), c ≠ NUL := by
  induction md with
  | nil => simp [List.intercalate]
  | cons b rest ih =>
    cases rest with
    | nil =>
      intro c hc
      simp only [List.map_cons, List.map_nil, List.intercalate, List.intersperse,
        List.flatten_cons, List.flatten_nil, List.append_nil] at hc
      exact (hex_pair_not_nul b (hbytes b (by simp)) c hc).1
    | cons d rest =>
      intro c hc
      simp only [List.map_cons, intercalate_cons_cons, List.mem_append, List.mem_cons] at hc
      rcases hc with hc | rfl | hc
      · exact (hex_pair_not_nul b (hbytes b (by simp)) c hc).1
      · decide
      · exact ih (fun x hx => hbytes x (List.mem_cons_of_mem _ hx)) c
          (by simpa only [List.map_cons] using hc)

/-- The code's output is the spec's fingerprint. -/
theorem hash_to_fingerprint_hex_eq (stack : List Char) (md : List Nat)
    (hbytes : ∀ b ∈ md, b < 256) (hstack : 3 * md.length ≤ stack.length) :
    hash_to_fingerprint_hex stack md md.length = fingerprint_spec md := by
  unfold hash_to_fingerprint_hex fingerprint_spec sln_conf_strdup
  rw [fingerprint_fill md stack hbytes md.length (le_refl _) hstack, List.take_length]
  cases md with
  | nil =>
    cases stack with
    | nil => simp [fp_body, List.intercalate]
    | cons c r => simp [fp_body, List.intercalate, NUL]
  | cons b rest =>
    have hne : b :: rest ≠ [] := by simp
    simp only [List.length_cons, gt_iff_lt, Nat.zero_lt_succ, if_true, Nat.add_sub_cancel]
    rw [fp_body_eq _ hne, List.append_assoc]
    have hlen : ([':'].intercalate ((b :: rest).map hex_pair)).length = 3 * rest.length + 2 := by
      have h1 := fp_body_length (b :: rest)
      rw [fp_body_eq _ hne] at h1
      simp only [List.length_append, List.length_cons, List.length_nil] at h1
      omega
    rw [List.set_append_right _ _ (by omega), hlen, Nat.sub_self]
    simp only [List.singleton_append, List.set_cons_zero]
    rw [List.takeWhile_append_of_pos (by
      intro c hc
      simpa using intercalate_not_nul _ hbytes c hc)]
    simp [NUL]

theorem fingerprint_spec_length (md : List Nat) (h : md ≠ []) :
    (fingerprint_spec md).length = 3 * md.length - 1 := by
  have h1 := fp_body_length md
  rw [fp_body_eq md h] at h1
  simp only [List.length_append, List.length_cons, List.length_nil] at h1
  simp only [fingerprint_spec, String.length]
  omega

theorem fingerprint_spec_format (md : List Nat) (hbytes : ∀ b ∈ md, b < 256) (h : md ≠ []) :
    fingerprint_format (fingerprint_spec md).data = true := by
  simp only [fingerprint_spec]
  induction md with
  | nil => exact absurd rfl h
  | cons b rest ih =>
    have hb := hbytes b (by simp)
    have h1 := (hex_digit_props (b / 16) (by omega)).1
    have h2 := (hex_digit_props (b % 16) (by omega)).1
    cases rest with
    | nil => simp [List.intercalate, List.intersperse, hex_pair, fingerprint_format, h1, h2]
    | cons c rest =>
      have := ih (fun x hx => hbytes x (List.mem_cons_of_mem _ hx)) (by simp)
      simp only [List.map_cons, intercalate_cons_cons] at this ⊢
      simp only [hex_pair] at this ⊢
      simp [fingerprint_format, h1, h2, this]

theorem hex_pair_value_pair (b : Nat) (hb : b < 256) : hex_pair_value (hex_pair b) = some b := by
  have h1 := (hex_digit_props (b / 16) (by omega)).2.2.2
  have h2 := (hex_digit_props (b % 16) (by omega)).2.2.2
  simp only [hex_pair, hex_pair_value, h1, h2, Option.some.injEq]
  omega

theorem hex_pairs_value_map (md : List Nat) (hbytes : ∀ b ∈ md, b < 256) :
    hex_pairs_value (md.map hex_pair) = some md := by
  induction md with
  | nil => rfl
  | cons b rest ih =>
    have := ih (fun x hx => hbytes x (List.mem_cons_of_mem _ hx))
    simp [hex_pairs_value, hex_pair_value_pair b (hbytes b (by simp)), this]

theorem fingerprint_parse_spec (md : List Nat) (hbytes : ∀ b ∈ md, b < 256) :
    fingerprint_parse (fingerprint_spec md) = some md := by
  cases md with
  | nil => rfl
  | cons b rest =>
    have hne : b :: rest ≠ [] := by simp
    have hlen := fingerprint_spec_length (b :: rest) hne
    have hdata : (fingerprint_spec (b :: rest)).data ≠ [] := by
      intro h0
      simp [String.length, h0] at hlen
      omega
    rw [fingerprint_parse, if_neg hdata]
    simp only [fingerprint_spec]
    rw [List.splitOn_intercalate _ ':' (by
      intro l hl
      obtain ⟨x, hx, rfl⟩ := List.mem_map.mp hl
      intro hmem
      exact (hex_pair_not_nul x (hbytes x hx) _ hmem).2 rfl) (by simp)]
    exact hex_pairs_value_map _ hbytes

/-! ## Fingerprint encoding: claims -/

/-- C5: for a digest of n bytes, n at most `EVP_MAX_MD_SIZE` (the local buffer
holding three characters per byte, whatever its initial content),
`hash_to_fingerprint_hex` produces the two uppercase hexadecimal digits of each
byte, high nibble first, in order, with one colon between consecutive pairs and
none at the end; for n > 0 the length is 3n - 1 and the string matches
`[0-9A-F]{2}(:[0-9A-F]{2})*`; for n = 0 it is the empty string. -/
theorem C5_fingerprint_encoding (EVP_MAX_MD_SIZE : Nat) (stack : List Char) (md : List Nat)
    (hsize : md.length ≤ EVP_MAX_MD_SIZE) (hstack : stack.length = EVP_MAX_MD_SIZE * 3)
    (hbytes : ∀ b ∈ md, b < 256) :
    hash_to_fingerprint_hex stack md md.length = fingerprint_spec md
    ∧ (0 < md.length →
        (hash_to_fingerprint_hex stack md md.length).length = 3 * md.length - 1
        ∧ fingerprint_format (hash_to_fingerprint_hex stack md md.length).data = true)
    ∧ (md.length = 0 → hash_to_fingerprint_hex stack md md.length = "") := by
  have heq := hash_to_fingerprint_hex_eq stack md hbytes (by omega)
  rw [heq]
  refine ⟨rfl, ?_, ?_⟩
  · intro hpos
    have hne : md ≠ [] := by intro h; simp [h] at hpos
    exact ⟨fingerprint_spec_length md hne, fingerprint_spec_format md hbytes hne⟩
  · intro h0
    have : md = [] := List.length_eq_zero.mp h0
    subst this
    rfl

/-- C5 on the digest AB CD EF with a buffer for 64 bytes. -/
theorem C5_fingerprint_encoding_witness :
    hash_to_fingerprint_hex (List.replicate 192 'x') [0xAB, 0xCD, 0xEF] 3 = "AB:CD:EF"
    ∧ (hash_to_fingerprint_hex (List.replicate 192 'x') [0xAB, 0xCD, 0xEF] 3).length = 8
    ∧ hash_to_fingerprint_hex (List.replicate 192 'x') [] 0 = "" :=
  have h := C5_fingerprint_encoding 64 (List.replicate 192 'x') [0xAB, 0xCD, 0xEF]
    (by decide) (List.length_replicate _ _) (by decide)
  have h0 := C5_fingerprint_encoding 64 (List.replicate 192 'x') []
    (by decide) (List.length_replicate _ _) (by decide)
  ⟨h.1.trans (by decide), (h.2.1 (by decide)).1, h0.2.2 rfl⟩

/-- C6: splitting the output of `hash_to_fingerprint_hex` on colons and reading
each pair as a hexadecimal byte gives back the digest, so two digests with the
same fingerprint string are equal. -/
theorem C6_fingerprint_roundtrip (EVP_MAX_MD_SIZE : Nat) (stack stack2 : List Char)
    (md md2 : List Nat)
    (hsize : md.length ≤ EVP_MAX_MD_SIZE) (hstack : stack.length = EVP_MAX_MD_SIZE * 3)
    (hbytes : ∀ b ∈ md, b < 256)
    (hsize2 : md2.length ≤ EVP_MAX_MD_SIZE) (hstack2 : stack2.length = EVP_MAX_MD_SIZE * 3)
    (hbytes2 : ∀ b ∈ md2, b < 256) :
    fingerprint_parse (hash_to_fingerprint_hex stack md md.length) = some md
    ∧ (hash_to_fingerprint_hex stack md md.length
          = hash_to_fingerprint_hex stack2 md2 md2.length → md = md2) := by
  have heq := hash_to_fingerprint_hex_eq stack md hbytes (by omega)
  have heq2 := hash_to_fingerprint_hex_eq stack2 md2 hbytes2 (by omega)
  rw [heq, heq2]
  refine ⟨fingerprint_parse_spec md hbytes, ?_⟩
  intro h
  have h1 := fingerprint_parse_spec md hbytes
  rw [h, fingerprint_parse_spec md2 hbytes2] at h1
  exact (Option.some.inj h1).symm

/-- C6 on the digest AB CD EF. -/
theorem C6_fingerprint_roundtrip_witness :
    fingerprint_parse (hash_to_fingerprint_hex (List.replicate 192 'x') [0xAB, 0xCD, 0xEF] 3)
      = some [0xAB, 0xCD, 0xEF] :=
  (C6_fingerprint_roundtrip 64 (List.replicate 192 'x') (List.replicate 192 'y')
    [0xAB, 0xCD, 0xEF] [0x01] (by decide) (List.length_replicate _ _) (by decide)
    (by decide) (List.length_replicate _ _) (by decide)).1

/-! ## Certificates: facts -/

theorem second_call_sha1 (stack1 stack2 : List Char) (conf : selene_conf_t)
    (cert : selene_cert_t) : second_call_agrees .fingerprint_sha1 stack1 stack2 conf cert := by
  obtain ⟨⟨d1, d2, bio, nbts, nbt, nats, nat, iss, sub, ver, san⟩, depth, ln, lp,
    c1, c2, c3, c4, t1, t2, cs, ci, csan, gen⟩ := cert
  cases c1 <;> cases d1 <;>
    simp [second_call_agrees, cert_accessor.call, cert_value.populated,
      selene_cert_fingerprint_sha1, generate_fingerprint_sha1]

theorem second_call_md5 (stack1 stack2 : List Char) (conf : selene_conf_t)
    (cert : selene_cert_t) : second_call_agrees .fingerprint_md5 stack1 stack2 conf cert := by
  obtain ⟨⟨d1, d2, bio, nbts, nbt, nats, nat, iss, sub, ver, san⟩, depth, ln, lp,
    c1, c2, c3, c4, t1, t2, cs, ci, csan, gen⟩ := cert
  cases c2 <;> cases d2 <;>
    simp [second_call_agrees, cert_accessor.call, cert_value.populated,
      selene_cert_fingerprint_md5, generate_fingerprint_md5]

theorem second_call_not_before (stack1 stack2 : List Char) (conf : selene_conf_t)
    (cert : selene_cert_t) : second_call_agrees .not_before stack1 stack2 conf cert := by
  obtain ⟨⟨d1, d2, bio, nbts, nbt, nats, nat, iss, sub, ver, san⟩, depth, ln, lp,
    c1, c2, c3, c4, t1, t2, cs, ci, csan, gen⟩ := cert
  by_cases h1 : t1 = 0 <;> cases bio <;> cases nbt <;> cases nat <;>
    by_cases h4 : nbts = 0 <;>
    simp [second_call_agrees, cert_accessor.call, cert_value.populated,
      selene_cert_not_before, generate_expires, h1, h4]

theorem second_call_not_after (stack1 stack2 : List Char) (conf : selene_conf_t)
    (cert : selene_cert_t) : second_call_agrees .not_after stack1 stack2 conf cert := by
  obtain ⟨⟨d1, d2, bio, nbts, nbt, nats, nat, iss, sub, ver, san⟩, depth, ln, lp,
    c1, c2, c3, c4, t1, t2, cs, ci, csan, gen⟩ := cert
  by_cases h1 : t2 = 0 <;> cases bio <;> cases nbt <;> cases nat <;>
    by_cases h4 : nats = 0 <;>
    simp [second_call_agrees, cert_accessor.call, cert_value.populated,
      selene_cert_not_after, generate_expires, h1, h4]

theorem second_call_not_before_str (stack1 stack2 : List Char) (conf : selene_conf_t)
    (cert : selene_cert_t) : second_call_agrees .not_before_str stack1 stack2 conf cert := by
  obtain ⟨⟨d1, d2, bio, nbts, nbt, nats, nat, iss, sub, ver, san⟩, depth, ln, lp,
    c1, c2, c3, c4, t1, t2, cs, ci, csan, gen⟩ := cert
  cases c3 <;> cases bio <;> cases nbt <;> cases nat <;>
    simp [second_call_agrees, cert_accessor.call, cert_value.populated,
      selene_cert_not_before_str, generate_expires]

theorem second_call_not_after_str (stack1 stack2 : List Char) (conf : selene_conf_t)
    (cert : selene_cert_t) : second_call_agrees .not_after_str stack1 stack2 conf cert := by
  obtain ⟨⟨d1, d2, bio, nbts, nbt, nats, nat, iss, sub, ver, san⟩, depth, ln, lp,
    c1, c2, c3, c4, t1, t2, cs, ci, csan, gen⟩ := cert
  cases c4 <;> cases bio <;> cases nbt <;> cases nat <;>
    simp [second_call_agrees, cert_accessor.call, cert_value.populated,
      selene_cert_not_after_str, generate_expires]

theorem second_call_subject (stack1 stack2 : List Char) (conf : selene_conf_t)
    (cert : selene_cert_t) : second_call_agrees .subject stack1 stack2 conf cert := by
  obtain ⟨⟨d1, d2, bio, nbts, nbt, nats, nat, iss, sub, ver, san⟩, depth, ln, lp,
    c1, c2, c3, c4, t1, t2, cs, ci, csan, gen⟩ := cert
  cases cs <;> cases sub <;>
    simp [second_call_agrees, cert_accessor.call, cert_value.populated,
      selene_cert_subject, generate_subject]

theorem second_call_issuer (stack1 stack2 : List Char) (conf : selene_conf_t)
    (cert : selene_cert_t) : second_call_agrees .issuer stack1 stack2 conf cert := by
  obtain ⟨⟨d1, d2, bio, nbts, nbt, nats, nat, iss, sub, ver, san⟩, depth, ln, lp,
    c1, c2, c3, c4, t1, t2, cs, ci, csan, gen⟩ := cert
  cases ci <;> cases iss <;>
    simp [second_call_agrees, cert_accessor.call, cert_value.populated,
      selene_cert_issuer, generate_issuer]

theorem second_call_alt_names (stack1 stack2 : List Char) (conf : selene_conf_t)
    (cert : selene_cert_t) : second_call_agrees .alt_names_count stack1 stack2 conf cert := by
  obtain ⟨⟨d1, d2, bio, nbts, nbt, nats, nat, iss, sub, ver, san⟩, depth, ln, lp,
    c1, c2, c3, c4, t1, t2, cs, ci, csan, gen⟩ := cert
  cases csan <;> cases san <;>
    simp [second_call_agrees, cert_accessor.call, cert_value.populated,
      selene_cert_alt_names_count, generate_subject_alt_names]

theorem alt_names_range (names : List GENERAL_NAME) (acc : selene_conf_t × List (List Nat))
    (n : Nat) (hn : n ≤ names.length) :
    (List.range n).foldl (alt_names_step names) acc = (names.take n).foldl alt_names_push acc := by
  induction n with
  | zero => simp
  | succ n ih =>
    have hlt : n < names.length := by omega
    rw [List.range_succ, List.foldl_append, ih (by omega), List.take_succ, List.foldl_append]
    simp [alt_names_step, alt_names_push, List.getElem?_eq_getElem hlt]

theorem alt_names_fold (names : List GENERAL_NAME) (acc : selene_conf_t × List (List Nat)) :
    (names.foldl alt_names_push acc).2
      = acc.2 ++ (names.filter (fun nm => nm.type = GEN_DNS)).map alt_name_copy := by
  induction names generalizing acc with
  | nil => simp
  | cons nm rest ih =>
    rw [List.foldl_cons, ih]
    by_cases h : nm.type = GEN_DNS <;> simp [alt_names_push, h]

theorem generate_subject_alt_names_cache (conf : selene_conf_t) (cert : selene_cert_t)
    (names : List GENERAL_NAME) (h : cert.cert.subject_alt_name = some names) :
    (generate_subject_alt_names conf cert).2.cache_subjectAltNames
      = some ((names.filter (fun nm => nm.type = GEN_DNS)).map alt_name_copy) := by
  have h1 := alt_names_range names (conf_alloc conf, []) names.length (le_refl _)
  have h2 := alt_names_fold names (conf_alloc conf, [])
  rw [List.take_length] at h1
  simp only [generate_subject_alt_names, h, h1]
  simp only [List.nil_append] at h2
  simp [← h2]

/-! ## Certificates: claims -/

/-- C8, refuted as stated: for a certificate whose notBefore converts to
timestamp 0, the first call of `selene_cert_not_before` makes two allocations
and the second call, finding the timestamp cache at 0, runs `generate_expires`
a second time and makes two more. -/
theorem C8_second_call_counterexample :
    (cert_accessor.not_before.call [] ⟨0, 0⟩
        (cert_fresh x509_example 0 .sentinel .sentinel)).2.1 = ⟨2, 0⟩
    ∧ (cert_accessor.not_before.call [] ⟨2, 0⟩
        (cert_accessor.not_before.call [] ⟨0, 0⟩
          (cert_fresh x509_example 0 .sentinel .sentinel)).2.2).2.1 = ⟨4, 0⟩
    ∧ (cert_accessor.not_before.call [] ⟨2, 0⟩
        (cert_accessor.not_before.call [] ⟨0, 0⟩
          (cert_fresh x509_example 0 .sentinel .sentinel)).2.2).2.2.generated = 2 := by
  decide

/-- C8, amended: for every certificate and each of the nine lazy accessors, a
second call returns a value equal to the first call's; and when the first call
returned a filled cache (a non-null string, name record or array, a non-zero
timestamp) the second call makes no allocation, does not run a generating
routine (the run counter is unchanged) and leaves the configuration and every
field of the certificate as they were. -/
theorem C8_second_call_cached (a : cert_accessor) (stack1 stack2 : List Char)
    (conf : selene_conf_t) (cert : selene_cert_t) :
    (a.call stack2 (a.call stack1 conf cert).2.1 (a.call stack1 conf cert).2.2).1
        = (a.call stack1 conf cert).1
    ∧ ((a.call stack1 conf cert).1.populated = true →
        (a.call stack2 (a.call stack1 conf cert).2.1 (a.call stack1 conf cert).2.2).2
          = (a.call stack1 conf cert).2) := by
  cases a
  · exact second_call_sha1 stack1 stack2 conf cert
  · exact second_call_md5 stack1 stack2 conf cert
  · exact second_call_not_before stack1 stack2 conf cert
  · exact second_call_not_after stack1 stack2 conf cert
  · exact second_call_not_before_str stack1 stack2 conf cert
  · exact second_call_not_after_str stack1 stack2 conf cert
  · exact second_call_subject stack1 stack2 conf cert
  · exact second_call_issuer stack1 stack2 conf cert
  · exact second_call_alt_names stack1 stack2 conf cert

/-- C8 amended, on the SHA-1 fingerprint of the example certificate: the first
call returns a string, so the second call changes nothing. -/
theorem C8_second_call_cached_witness :
    (cert_accessor.fingerprint_sha1.call [] ⟨0, 0⟩
        (cert_fresh x509_example 0 .sentinel .sentinel)).1.populated = true
    ∧ (cert_accessor.fingerprint_sha1.call []
        (cert_accessor.fingerprint_sha1.call [] ⟨0, 0⟩
          (cert_fresh x509_example 0 .sentinel .sentinel)).2.1
        (cert_accessor.fingerprint_sha1.call [] ⟨0, 0⟩
          (cert_fresh x509_example 0 .sentinel .sentinel)).2.2).2
      = (cert_accessor.fingerprint_sha1.call [] ⟨0, 0⟩
          (cert_fresh x509_example 0 .sentinel .sentinel)).2 :=
  ⟨by decide,
   (C8_second_call_cached .fingerprint_sha1 [] [] ⟨0, 0⟩
      (cert_fresh x509_example 0 .sentinel .sentinel)).2 (by decide)⟩

/-- C9: `generate_subject_alt_names` fills the cache with exactly the DNS-type
entries of the subjectAltName extension, in their order, each as its bytes
followed by a NUL, skipping every other kind; on a certificate without a cached
array `selene_cert_alt_names_count` returns their number, and 0 when the
extension is absent. -/
theorem C9_alt_names_dns_only (conf : selene_conf_t) (cert : selene_cert_t) :
    (∀ names : List GENERAL_NAME, cert.cert.subject_alt_name = some names →
        (∀ nm ∈ names, nm.ia5.data.length = nm.ia5.length) →
        (generate_subject_alt_names conf cert).2.cache_subjectAltNames
            = some (dns_names_spec names)
        ∧ (cert.cache_subjectAltNames = none →
            (selene_cert_alt_names_count conf cert).1
              = ((names.filter (fun nm => nm.type = GEN_DNS)).length : Int)
            ∧ (selene_cert_alt_names_count conf cert).2.2.cache_subjectAltNames
              = some (dns_names_spec names)))
    ∧ (cert.cert.subject_alt_name = none →
        (generate_subject_alt_names conf cert).2.cache_subjectAltNames = some []
        ∧ (cert.cache_subjectAltNames = none →
            (selene_cert_alt_names_count conf cert).1 = 0)) := by
  constructor
  · intro names hnames hwf
    have hgen := generate_subject_alt_names_cache conf cert names hnames
    have hcopy : (names.filter (fun nm => nm.type = GEN_DNS)).map alt_name_copy
        = dns_names_spec names := by
      unfold dns_names_spec
      apply List.map_congr_left
      intro nm hnm
      have := hwf nm (List.mem_of_mem_filter hnm)
      simp [alt_name_copy, ← this]
    rw [hcopy] at hgen
    refine ⟨hgen, ?_⟩
    intro hcache
    constructor
    · simp only [selene_cert_alt_names_count, hcache, if_true, hgen]
      simp [dns_names_spec]
    · simp only [selene_cert_alt_names_count, hcache, if_true, hgen]
  · intro hnone
    refine ⟨by simp [generate_subject_alt_names, hnone], ?_⟩
    intro hcache
    simp [selene_cert_alt_names_count, generate_subject_alt_names, hcache, hnone]

/-- C9 on the example certificate: of the entries DNS "a", another kind, DNS "bc"
the cache holds "a" and "bc", NUL-terminated, and the count is 2. -/
theorem C9_alt_names_dns_only_witness :
    (generate_subject_alt_names ⟨0, 0⟩
        (cert_fresh x509_example 0 .sentinel .sentinel)).2.cache_subjectAltNames
      = some [[97, 0], [98, 99, 0]]
    ∧ (selene_cert_alt_names_count ⟨0, 0⟩
        (cert_fresh x509_example 0 .sentinel .sentinel)).1 = 2 :=
  have h := (C9_alt_names_dns_only ⟨0, 0⟩ (cert_fresh x509_example 0 .sentinel .sentinel)).1
    _ rfl (by decide)
  ⟨h.1, (h.2 rfl).1⟩

/-! ## Chains: facts -/

theorem head_ptr_cons (a : Nat) (rest : List Nat) : head_ptr (a :: rest) = .elem a := rfl

theorem head_ptr_nil : head_ptr [] = .sentinel := rfl

theorem ring_chain_cons (cells : Nat → Option selene_cert_t) (prev : cert_ptr) (a : Nat)
    (rest : List Nat) :
    ring_chain cells prev (a :: rest) = true ↔
      ∃ c, cells a = some c ∧ c.link_prev = prev ∧ c.link_next = head_ptr rest
        ∧ ring_chain cells (.elem a) rest = true := by
  simp only [ring_chain]
  cases h : cells a with
  | none => simp
  | some c => simp [and_assoc]

theorem ring_chain_frame (cells1 cells2 : Nat → Option selene_cert_t) (l : List Nat)
    (h : ∀ a ∈ l, cells1 a = cells2 a) (prev : cert_ptr) :
    ring_chain cells1 prev l = ring_chain cells2 prev l := by
  induction l generalizing prev with
  | nil => rfl
  | cons a rest ih =>
    simp only [ring_chain, h a (List.mem_cons_self _ _)]
    cases cells2 a with
    | none => rfl
    | some c => simp only [ih (fun x hx => h x (List.mem_cons_of_mem _ hx))]

theorem chain_count_loop_eq (m : cert_mem) (l : List Nat) :
    ∀ (prev : cert_ptr) (fuel : Nat) (i : Int), ring_chain m.cells prev l = true →
      l.length < fuel → i + l.length ≤ INT_MAX →
      chain_count_loop m fuel (head_ptr l) i = some (i + l.length) := by
  induction l with
  | nil =>
    intro prev fuel i _ hf _
    obtain ⟨n, rfl⟩ : ∃ n, fuel = n + 1 := ⟨fuel - 1, by simp at hf; omega⟩
    simp [chain_count_loop, head_ptr_nil]
  | cons a rest ih =>
    intro prev fuel i hch hf hmax
    obtain ⟨n, rfl⟩ : ∃ n, fuel = n + 1 := ⟨fuel - 1, by omega⟩
    obtain ⟨c, hc, _, hnext, hrest⟩ := (ring_chain_cons _ _ _ _).mp hch
    simp only [List.length_cons, Nat.cast_add, Nat.cast_one] at hmax hf ⊢
    have hi : int_incr i = some (i + 1) := by
      unfold int_incr
      rw [if_pos (by omega)]
    simp only [chain_count_loop, head_ptr_cons, hi, hc, hnext]
    rw [ih (.elem a) n (i + 1) hrest (by omega) (by omega)]
    congr 1
    omega

theorem chain_entry_loop_eq (m : cert_mem) (offset : Int) (l : List Nat) :
    ∀ (prev : cert_ptr) (fuel : Nat) (i : Int), ring_chain m.cells prev l = true →
      l.length < fuel → i + l.length ≤ INT_MAX → i ≤ offset →
      (∀ (k : Nat) (hk : k < l.length), offset = i + k →
          chain_entry_loop m offset fuel (head_ptr l) i = some (some l[k]))
      ∧ (i + l.length ≤ offset →
          chain_entry_loop m offset fuel (head_ptr l) i = some none) := by
  induction l with
  | nil =>
    intro prev fuel i _ hf _ _
    obtain ⟨n, rfl⟩ : ∃ n, fuel = n + 1 := ⟨fuel - 1, by simp at hf; omega⟩
    refine ⟨fun k hk => absurd hk (by simp), fun _ => by simp [chain_entry_loop, head_ptr_nil]⟩
  | cons a rest ih =>
    intro prev fuel i hch hf hmax hle
    obtain ⟨n, rfl⟩ : ∃ n, fuel = n + 1 := ⟨fuel - 1, by omega⟩
    obtain ⟨c, hc, _, hnext, hrest⟩ := (ring_chain_cons _ _ _ _).mp hch
    simp only [List.length_cons, Nat.cast_add, Nat.cast_one] at hmax hf ⊢
    have hi : int_incr i = some (i + 1) := by
      unfold int_incr
      rw [if_pos (by omega)]
    constructor
    · intro k hk hoff
      cases k with
      | zero =>
        simp only [Nat.cast_zero, add_zero] at hoff
        simp [chain_entry_loop, head_ptr_cons, hoff]
      | succ k =>
        simp only [Nat.cast_add, Nat.cast_one] at hoff
        have hne : ¬ offset = i := by omega
        have hgt : ¬ i > offset := by omega
        simp only [chain_entry_loop, head_ptr_cons, hne, hgt, if_false, hi, hc, hnext,
          List.getElem_cons_succ]
        exact (ih (.elem a) n (i + 1) hrest (by omega) (by omega) (by omega)).1 k
          (by simpa using hk) (by omega)
    · intro hoff
      have hne : ¬ offset = i := by omega
      have hgt : ¬ i > offset := by omega
      simp only [chain_entry_loop, head_ptr_cons, hne, hgt, if_false, hi, hc, hnext]
      exact (ih (.elem a) n (i + 1) hrest (by omega) (by omega) (by omega)).2 (by omega)

theorem last_ptr_cons_cons (a b : Nat) (rest : List Nat) :
    last_ptr (a :: b :: rest) = last_ptr (b :: rest) := rfl

/-- Unlinking the first certificate of a well-formed chain leaves a well-formed
chain of the remaining ones; the unlinked cell stays allocated. -/
theorem ring_remove_head (m : cert_mem) (a : Nat) (rest : List Nat)
    (hwf : ring_wf m (a :: rest)) :
    ∃ m1, SLN_RING_REMOVE m (.elem a) = some m1 ∧ ring_wf m1 rest
      ∧ m1.cells a = m.cells a ∧ m1.freed = m.freed ∧ m1.conf = m.conf
      ∧ ∀ x, x ∉ a :: rest → m1.cells x = m.cells x := by
  obtain ⟨hnext, hprev, hch, hnd⟩ := hwf
  obtain ⟨c, hc, hcprev, hcnext, hrest⟩ := (ring_chain_cons _ _ _ _).mp hch
  have hnd' := List.nodup_cons.mp hnd
  cases rest with
  | nil =>
    refine ⟨{ m with chain := { list_next := .sentinel, list_prev := .sentinel } }, ?_, ?_,
      rfl, rfl, rfl, fun _ _ => rfl⟩
    · simp [SLN_RING_REMOVE, SLN_RING_PREV, SLN_RING_NEXT, ring_set_next, ring_set_prev, hc,
        hcprev, hcnext, head_ptr_nil]
    · exact ⟨rfl, rfl, rfl, List.nodup_nil⟩
  | cons b rest =>
    obtain ⟨cb, hcb, hcbprev, hcbnext, hrest'⟩ := (ring_chain_cons _ _ _ _).mp hrest
    have hab : a ≠ b := fun h => hnd'.1 (h ▸ List.mem_cons_self _ _)
    have hnd'' := List.nodup_cons.mp hnd'.2
    refine ⟨{ m with
        chain := { m.chain with list_next := .elem b },
        cells := fun x => if x = b then some { cb with link_prev := .sentinel }
                          else m.cells x }, ?_, ?_, ?_, rfl, rfl, ?_⟩
    · simp [SLN_RING_REMOVE, SLN_RING_PREV, SLN_RING_NEXT, ring_set_next, ring_set_prev, hc,
        hcprev, hcnext, head_ptr_cons, hcb]
    · refine ⟨rfl, ?_, ?_, hnd'.2⟩
      · simpa [last_ptr_cons_cons] using hprev
      · rw [ring_chain_cons]
        refine ⟨{ cb with link_prev := .sentinel }, by simp, rfl, hcbnext, ?_⟩
        rw [← hrest']
        apply ring_chain_frame
        intro x hx
        have : x ≠ b := fun h => hnd''.1 (h ▸ hx)
        simp [this]
    · simp [hab]
    · intro x hx
      have : x ≠ b := fun h => hx (h ▸ List.mem_cons_of_mem _ (List.mem_cons_self _ _))
      simp [this]

/-- Destroying the first certificate of a well-formed chain. -/
theorem cert_destroy_head (m : cert_mem) (a : Nat) (rest : List Nat)
    (hwf : ring_wf m (a :: rest)) :
    ∃ m2, sln_cert_destroy m a = some m2 ∧ ring_wf m2 rest
      ∧ m2.cells a = none ∧ m2.freed = m.freed ++ [a]
      ∧ ∀ x, x ∉ a :: rest → m2.cells x = m.cells x := by
  obtain ⟨m1, hrem, hwf1, hcell, hfreed, _, hother⟩ := ring_remove_head m a rest hwf
  obtain ⟨c, hc, _⟩ := (ring_chain_cons _ _ _ _).mp hwf.2.2.1
  have hnd := List.nodup_cons.mp hwf.2.2.2
  have hc1 : m1.cells a = some c := by rw [hcell, hc]
  refine ⟨{ m1 with
      cells := fun x => if x = a then none else m1.cells x,
      freed := m1.freed ++ [a],
      conf := conf_free (cert_release_caches m1.conf c).1 }, ?_, ?_, ?_, ?_, ?_⟩
  · simp [sln_cert_destroy, hc, hrem, hc1]
  · obtain ⟨h1, h2, h3, h4⟩ := hwf1
    refine ⟨h1, h2, ?_, h4⟩
    rw [← h3]
    apply ring_chain_frame
    intro x hx
    have : x ≠ a := fun h => hnd.1 (h ▸ hx)
    simp [this]
  · simp
  · simp [hfreed]
  · intro x hx
    have : x ≠ a := fun h => hx (h ▸ List.mem_cons_self _ _)
    simp only [this, if_false]
    exact hother x hx

/-- Clearing a well-formed chain. -/
theorem chain_clear_wf (l : List Nat) :
    ∀ (m : cert_mem) (fuel : Nat), ring_wf m l → l.length < fuel →
      ∃ m1, sln_cert_chain_clear fuel m = some m1 ∧ ring_wf m1 []
        ∧ m1.freed = m.freed ++ l ∧ (∀ a ∈ l, m1.cells a = none)
        ∧ ∀ x, x ∉ l → m1.cells x = m.cells x := by
  induction l with
  | nil =>
    intro m fuel hwf hf
    obtain ⟨n, rfl⟩ : ∃ n, fuel = n + 1 := ⟨fuel - 1, by simp at hf; omega⟩
    refine ⟨m, ?_, hwf, by simp, by simp, fun _ _ => rfl⟩
    have := hwf.1
    simp only [head_ptr_nil] at this
    simp [sln_cert_chain_clear, this]
  | cons a rest ih =>
    intro m fuel hwf hf
    obtain ⟨n, rfl⟩ : ∃ n, fuel = n + 1 := ⟨fuel - 1, by omega⟩
    obtain ⟨m2, hdes, hwf2, hcell, hfreed, hother⟩ := cert_destroy_head m a rest hwf
    obtain ⟨m3, hclr, hwf3, hfreed3, hcells3, hother3⟩ := ih m2 n hwf2
      (by simp only [List.length_cons] at hf; omega)
    have hnd := List.nodup_cons.mp hwf.2.2.2
    refine ⟨m3, ?_, hwf3, ?_, ?_, ?_⟩
    · have := hwf.1
      simp only [head_ptr_cons] at this
      simp [sln_cert_chain_clear, this, hdes, hclr]
    · simp [hfreed3, hfreed]
    · intro x hx
      rcases List.mem_cons.mp hx with rfl | hx
      · rw [hother3 _ hnd.1, hcell]
      · exact hcells3 x hx
    · intro x hx
      have hx1 : x ∉ rest := fun h => hx (List.mem_cons_of_mem _ h)
      rw [hother3 x hx1, hother x hx]

theorem last_ptr_mem (l : List Nat) (h : l ≠ []) : ∃ y ∈ l, last_ptr l = .elem y := by
  induction l with
  | nil => exact absurd rfl h
  | cons a rest ih =>
    cases rest with
    | nil => exact ⟨a, List.mem_cons_self _ _, rfl⟩
    | cons b rest =>
      obtain ⟨y, hy, hl⟩ := ih (by simp)
      exact ⟨y, List.mem_cons_of_mem _ hy, by rw [last_ptr_cons_cons, hl]⟩

theorem last_ptr_snoc (l : List Nat) (a : Nat) : last_ptr (l ++ [a]) = .elem a := by
  induction l with
  | nil => rfl
  | cons b rest ih =>
    cases rest with
    | nil => rfl
    | cons c rest => simpa [last_ptr_cons_cons] using ih

theorem head_ptr_snoc (l : List Nat) (a : Nat) :
    head_ptr (l ++ [a]) = if l = [] then .elem a else head_ptr l := by
  cases l <;> simp [head_ptr]

theorem ring_chain_allocated (cells : Nat → Option selene_cert_t) (l : List Nat) :
    ∀ prev, ring_chain cells prev l = true → ∀ x ∈ l, ∃ c, cells x = some c := by
  induction l with
  | nil => intro _ _ x hx; simp at hx
  | cons a rest ih =>
    intro prev h x hx
    obtain ⟨c, hc, _, _, hrest⟩ := (ring_chain_cons _ _ _ _).mp h
    rcases List.mem_cons.mp hx with rfl | hx
    · exact ⟨c, hc⟩
    · exact ih _ hrest x hx

theorem ring_chain_snoc (cells : Nat → Option selene_cert_t) (a : Nat) (ca : selene_cert_t)
    (hnext : ca.link_next = .sentinel) (l : List Nat) :
    ∀ prev, a ∉ l → l.Nodup → ring_chain cells prev l = true →
      ca.link_prev = (if l = [] then prev else last_ptr l) →
      ring_chain (cells_snoc cells a ca (last_ptr l)) prev (l ++ [a]) = true := by
  induction l with
  | nil =>
    intro prev _ _ _ hp
    simp only [List.nil_append, ring_chain_cons]
    exact ⟨ca, by simp [cells_snoc], by simpa using hp, by simp [hnext, head_ptr_nil], rfl⟩
  | cons z rest ih =>
    intro prev ha hnd hch hp
    obtain ⟨cz, hcz, hczprev, hcznext, hrest⟩ := (ring_chain_cons _ _ _ _).mp hch
    have hza : z ≠ a := fun h => ha (h ▸ List.mem_cons_self _ _)
    have ha' : a ∉ rest := fun h => ha (List.mem_cons_of_mem _ h)
    have hnd' := List.nodup_cons.mp hnd
    cases rest with
    | nil =>
      simp only [List.cons_append, List.nil_append, ring_chain_cons]
      refine ⟨{ cz with link_next := .elem a }, by simp [cells_snoc, hza, last_ptr, hcz],
        hczprev, by simp [head_ptr_cons], ca, by simp [cells_snoc], ?_, ?_, rfl⟩
      · simpa [last_ptr] using hp
      · simp [hnext, head_ptr_nil]
    | cons b rest =>
      have hlast : last_ptr (z :: b :: rest) = last_ptr (b :: rest) := rfl
      obtain ⟨y, hy, hly⟩ := last_ptr_mem (b :: rest) (by simp)
      have hzy : z ≠ y := fun h => hnd'.1 (h ▸ hy)
      rw [List.cons_append, ring_chain_cons, hlast]
      refine ⟨cz, ?_, hczprev, by simpa [head_ptr_cons] using hcznext, ?_⟩
      · simp only [cells_snoc, hza, if_false, hly]
        rw [if_neg (by
          intro h
          exact hzy (cert_ptr.elem.inj h).symm)]
        exact hcz
      · exact ih (.elem z) ha' hnd'.2 hrest (by simpa [hlast] using hp)

/-- Appending an allocated, unlinked certificate to a well-formed chain gives a
well-formed chain with that certificate last. -/
theorem chain_append_wf (m : cert_mem) (l : List Nat) (a : Nat) (c : selene_cert_t)
    (hwf : ring_wf m l) (hc : m.cells a = some c) (ha : a ∉ l) :
    ∃ m1, sln_cert_chain_append m a = some m1 ∧ ring_wf m1 (l ++ [a])
      ∧ m1.cells = cells_snoc m.cells a
          { c with link_next := .sentinel, link_prev := last_ptr l } (last_ptr l)
      ∧ m1.freed = m.freed ∧ m1.conf = m.conf := by
  obtain ⟨hnext, hprev, hch, hnd⟩ := hwf
  have hnd2 : (l ++ [a]).Nodup := by
    rw [List.nodup_append]
    exact ⟨hnd, List.nodup_singleton a, by
      intro x hx hx2
      rw [List.mem_singleton] at hx2
      exact ha (hx2 ▸ hx)⟩
  have hchain := ring_chain_snoc m.cells a
    { c with link_next := .sentinel, link_prev := last_ptr l } rfl l .sentinel ha hnd hch
    (by cases l <;> simp [last_ptr])
  by_cases hl : l = []
  · subst hl
    simp only [head_ptr_nil] at hnext
    have hprev' : m.chain.list_prev = .sentinel := hprev
    have hcells : (fun x => if x = a then
          some { c with link_next := .sentinel, link_prev := .sentinel } else m.cells x)
        = cells_snoc m.cells a { c with link_next := .sentinel, link_prev := last_ptr [] }
            (last_ptr []) := by
      funext x
      by_cases hx : x = a <;> simp [cells_snoc, hx, last_ptr]
    refine ⟨{ m with
        chain := { list_next := .elem a, list_prev := .elem a },
        cells := fun x => if x = a then
          some { c with link_next := .sentinel, link_prev := .sentinel } else m.cells x },
      ?_, ⟨rfl, rfl, ?_, hnd2⟩, hcells, rfl, rfl⟩
    · simp only [sln_cert_chain_append, ring_set_next, ring_set_prev, hc, hprev', if_true]
      congr 2
      funext x
      by_cases hx : x = a <;> simp [hx]
    · simp only [hcells]
      exact hchain
  · obtain ⟨z, hz, hlz⟩ := last_ptr_mem l hl
    have hza : z ≠ a := fun h => ha (h ▸ hz)
    obtain ⟨cz, hcz⟩ := ring_chain_allocated m.cells l _ hch z hz
    have hprev' : m.chain.list_prev = .elem z := by rw [hprev, hlz]
    have hcells : (fun x => if x = z then some { cz with link_next := .elem a }
          else if x = a then some { c with link_next := .sentinel, link_prev := .elem z }
          else m.cells x)
        = cells_snoc m.cells a { c with link_next := .sentinel, link_prev := last_ptr l }
            (last_ptr l) := by
      funext x
      by_cases hx : x = a
      · subst hx
        simp [cells_snoc, hlz, hza.symm]
      · by_cases hxz : x = z
        · subst hxz
          simp [cells_snoc, hlz, hx, hcz]
        · have : ¬ z = x := fun h => hxz h.symm
          simp [cells_snoc, hlz, hx, hxz, this]
    refine ⟨{ m with
        chain := { list_next := m.chain.list_next, list_prev := .elem a },
        cells := fun x => if x = z then some { cz with link_next := .elem a }
          else if x = a then some { c with link_next := .sentinel, link_prev := .elem z }
          else m.cells x },
      ?_, ⟨?_, ?_, ?_, hnd2⟩, hcells, rfl, rfl⟩
    · simp only [sln_cert_chain_append, ring_set_next, ring_set_prev, hc, hprev', if_true,
        hza, if_false, hcz]
      congr 2
      funext x
      by_cases hx : x = a <;> by_cases hxz : x = z <;> simp [hx, hxz, hza, hza.symm]
    · simp [head_ptr_snoc, hl, hnext]
    · simp [last_ptr_snoc]
    · simp only [hcells]
      exact hchain

theorem cells_snoc_depth (cells : Nat → Option selene_cert_t) (a : Nat) (c : selene_cert_t)
    (next prev lastp : cert_ptr) (hc : cells a = some c) (x : Nat) :
    (cells_snoc cells a { c with link_next := next, link_prev := prev } lastp x).map
        selene_cert_depth = (cells x).map selene_cert_depth := by
  by_cases hx : x = a
  · subst hx
    simp [cells_snoc, hc, selene_cert_depth]
  · by_cases hl : lastp = .elem x
    · cases h : cells x <;> simp [cells_snoc, hx, hl, h, selene_cert_depth]
    · simp [cells_snoc, hx, hl]

/-- Building a chain by creating and appending certificates at unused, pairwise
distinct addresses gives a well-formed chain holding them in insertion order,
each with the depth it was created with. -/
theorem chain_build_wf (specs : List (Nat × X509 × Int)) :
    ∀ (m : cert_mem) (l : List Nat), ring_wf m l → (∀ x, x ∉ l → m.cells x = none) →
      (l ++ specs.map (fun s => s.1)).Nodup →
      ∃ m1, chain_build m specs = some m1 ∧ ring_wf m1 (l ++ specs.map (fun s => s.1))
        ∧ (∀ x, (m.cells x).isSome → (m1.cells x).map selene_cert_depth
              = (m.cells x).map selene_cert_depth)
        ∧ (∀ s ∈ specs, (m1.cells s.1).map selene_cert_depth = some s.2.2) := by
  induction specs with
  | nil =>
    intro m l hwf _ _
    exact ⟨m, rfl, by simpa using hwf, fun _ _ => rfl, by simp⟩
  | cons s rest ih =>
    intro m l hwf hfree hnd
    obtain ⟨a, x509, depth⟩ := s
    simp only [List.map_cons] at hnd ⊢
    have ha : a ∉ l := by
      intro h
      have := (List.nodup_append.mp hnd).2.2
      exact this h (List.mem_cons_self _ _)
    have hnone := hfree a ha
    -- create
    have hcreate : sln_cert_create m a x509 depth = some { m with
        cells := fun x => if x = a then some (cert_fresh x509 depth (.elem a) (.elem a))
                          else m.cells x,
        conf := conf_alloc m.conf } := by
      simp [sln_cert_create, hnone]
    have hwf1 : ring_wf { m with
        cells := fun x => if x = a then some (cert_fresh x509 depth (.elem a) (.elem a))
                          else m.cells x,
        conf := conf_alloc m.conf } l := by
      obtain ⟨h1, h2, h3, h4⟩ := hwf
      refine ⟨h1, h2, ?_, h4⟩
      rw [← h3]
      apply ring_chain_frame
      intro x hx
      have : x ≠ a := fun h => ha (h ▸ hx)
      simp [this]
    obtain ⟨m2, happ, hwf2, hcells2, _, _⟩ := chain_append_wf _ l a
      (cert_fresh x509 depth (.elem a) (.elem a)) hwf1 (by simp) ha
    have hfree2 : ∀ x, x ∉ l ++ [a] → m2.cells x = none := by
      intro x hx
      have hxa : x ≠ a := fun h => hx (by simp [h])
      have hxl : x ∉ l := fun h => hx (by simp [h])
      rw [hcells2]
      simp [cells_snoc, hxa, hfree x hxl]
    have hdepth2 : ∀ x, (m2.cells x).map selene_cert_depth
        = (if x = a then some depth else (m.cells x).map selene_cert_depth) := by
      intro x
      rw [hcells2, cells_snoc_depth _ a _ _ _ _ (by simp)]
      by_cases hx : x = a <;> simp [hx, cert_fresh, selene_cert_depth]
    obtain ⟨m3, hbuild, hwf3, hkeep3, hdepth3⟩ := ih m2 (l ++ [a]) hwf2 hfree2
      (by simpa using hnd)
    refine ⟨m3, ?_, by simpa using hwf3, ?_, ?_⟩
    · simp [chain_build, hcreate, happ, hbuild]
    · intro x hx
      have hxa : x ≠ a := by
        intro h
        rw [h, hnone] at hx
        simp at hx
      have h2 := hdepth2 x
      rw [if_neg hxa] at h2
      have hsome : (m2.cells x).isSome := by
        cases hm : m.cells x with
        | none => simp [hm] at hx
        | some c =>
          cases hm2 : m2.cells x with
          | none => simp [hm, hm2] at h2
          | some c2 => rfl
      rw [hkeep3 x hsome, h2]
    · intro s hs
      rcases List.mem_cons.mp hs with rfl | hs
      · have h2 := hdepth2 a
        rw [if_pos rfl] at h2
        have hsome : (m2.cells a).isSome := by
          cases hm2 : m2.cells a with
          | none => simp [hm2] at h2
          | some c2 => rfl
        rw [hkeep3 a hsome, h2]
      · exact hdepth3 s hs

/-! ## Chains: claims -/

/-- C7: for a well-formed chain holding the certificates at addresses `l` (n of
them, n an `int`), `selene_cert_chain_count` returns n,
`selene_cert_chain_entry` returns the i-th of them for each i below n, the n
results are pairwise distinct, and the entry at n is null. A chain built by
creating and appending certificates is well-formed with `l` the insertion
order, each certificate keeping the depth it was created with. -/
theorem C7_chain_entries (m : cert_mem) (l : List Nat) (fuel : Nat) (hwf : ring_wf m l)
    (hlen : (l.length : Int) ≤ INT_MAX) (hfuel : l.length < fuel) :
    selene_cert_chain_count fuel m = some (l.length : Int)
    ∧ (∀ (i : Nat) (hi : i < l.length),
        selene_cert_chain_entry fuel m i = some (some l[i]))
    ∧ (∀ (i j : Nat), i < l.length → j < l.length → i ≠ j →
        selene_cert_chain_entry fuel m i ≠ selene_cert_chain_entry fuel m j)
    ∧ selene_cert_chain_entry fuel m l.length = some none
    ∧ (∀ (conf : selene_conf_t) (specs : List (Nat × X509 × Int)),
        (specs.map (fun s => s.1)).Nodup →
        ∃ mb, chain_build (sln_cert_chain_create conf) specs = some mb
          ∧ ring_wf mb (specs.map (fun s => s.1))
          ∧ ∀ s ∈ specs, (mb.cells s.1).map selene_cert_depth = some s.2.2) := by
  obtain ⟨hnext, hprev, hch, hnd⟩ := hwf
  have hentry : ∀ (i : Nat) (hi : i < l.length),
      selene_cert_chain_entry fuel m i = some (some l[i]) := by
    intro i hi
    unfold selene_cert_chain_entry
    rw [hnext]
    exact (chain_entry_loop_eq m i l .sentinel fuel 0 hch hfuel (by simpa using hlen)
      (by omega)).1 i hi (by simp)
  refine ⟨?_, hentry, ?_, ?_, ?_⟩
  · unfold selene_cert_chain_count
    rw [hnext, chain_count_loop_eq m l .sentinel fuel 0 hch hfuel (by simpa using hlen)]
    simp
  · intro i j hi hj hij heq
    rw [hentry i hi, hentry j hj] at heq
    have h1 : l[i] = l[j] := Option.some.inj (Option.some.inj heq)
    exact hij ((List.Nodup.getElem_inj_iff hnd).mp h1)
  · unfold selene_cert_chain_entry
    rw [hnext]
    exact (chain_entry_loop_eq m l.length l .sentinel fuel 0 hch hfuel (by simpa using hlen)
      (by omega)).2 (by simp)
  · intro conf specs hspecs
    obtain ⟨mb, hb, hwfb, _, hdepth⟩ := chain_build_wf specs (sln_cert_chain_create conf) []
      ⟨rfl, rfl, rfl, List.nodup_nil⟩ (fun _ _ => rfl) (by simpa using hspecs)
    exact ⟨mb, hb, by simpa using hwfb, hdepth⟩

/-- C7 on the chain of depths 0, 1, 2: count 3, entry 0 and entry 2 are the
certificates of depth 0 and 2, entry 3 is null. -/
theorem C7_chain_entries_witness :
    ring_wf chain_example_mem [10, 20, 30]
    ∧ selene_cert_chain_count 4 chain_example_mem = some 3
    ∧ selene_cert_chain_entry 4 chain_example_mem 0 = some (some 10)
    ∧ (chain_example_mem.cells 10).map selene_cert_depth = some 0
    ∧ selene_cert_chain_entry 4 chain_example_mem 2 = some (some 30)
    ∧ (chain_example_mem.cells 30).map selene_cert_depth = some 2
    ∧ selene_cert_chain_entry 4 chain_example_mem 3 = some none :=
  have h := C7_chain_entries chain_example_mem [10, 20, 30] 4 (by decide) (by decide)
    (by decide)
  ⟨by decide, h.1, h.2.1 0 (by decide), by decide, h.2.1 2 (by decide), by decide, h.2.2.2.1⟩

/-- C10: on a well-formed chain of n certificates `sln_cert_chain_clear` terminates
(n + 1 loop tests suffice), releases the n certificates in chain order, head
first, each exactly once, and leaves a well-formed empty chain whose count is
0; the destruction of the head first unlinks it, which leaves a well-formed
chain of the others with the unlinked cell still allocated. -/
theorem C10_chain_clear (m : cert_mem) (l : List Nat) (fuel : Nat) (hwf : ring_wf m l)
    (hfuel : l.length < fuel) :
    ∃ m1, sln_cert_chain_clear fuel m = some m1
      ∧ ring_wf m1 []
      ∧ m1.freed = m.freed ++ l ∧ l.Nodup
      ∧ (∀ a ∈ l, m1.cells a = none)
      ∧ selene_cert_chain_count fuel m1 = some 0
      ∧ (∀ (a : Nat) (rest : List Nat), l = a :: rest →
          ∃ mu md, SLN_RING_REMOVE m (.elem a) = some mu ∧ ring_wf mu rest
            ∧ (mu.cells a).isSome = true
            ∧ sln_cert_destroy m a = some md ∧ ring_wf md rest
            ∧ md.cells a = none ∧ md.freed = m.freed ++ [a]) := by
  obtain ⟨m1, hclr, hwf1, hfreed, hcells, _⟩ := chain_clear_wf l m fuel hwf hfuel
  refine ⟨m1, hclr, hwf1, hfreed, hwf.2.2.2, hcells, ?_, ?_⟩
  · unfold selene_cert_chain_count
    rw [hwf1.1]
    have := chain_count_loop_eq m1 [] .sentinel fuel 0 rfl (by simp; omega) (by decide)
    simpa using this
  · intro a rest hl
    subst hl
    obtain ⟨mu, hrem, hwfu, hcell, _⟩ := ring_remove_head m a rest hwf
    obtain ⟨md, hdes, hwfd, hnone, hfr, _⟩ := cert_destroy_head m a rest hwf
    obtain ⟨c, hc, _⟩ := (ring_chain_cons _ _ _ _).mp hwf.2.2.1
    exact ⟨mu, md, hrem, hwfu, by rw [hcell, hc]; rfl, hdes, hwfd, hnone, hfr⟩

/-- C10 on the chain of three certificates at addresses 10, 20, 30. -/
theorem C10_chain_clear_witness :
    ∃ m1, sln_cert_chain_clear 4 chain_example_mem = some m1
      ∧ ring_wf m1 [] ∧ m1.freed = [10, 20, 30]
      ∧ selene_cert_chain_count 4 m1 = some 0 :=
  have ⟨m1, h1, h2, h3, _, _, h6, _⟩ :=
    C10_chain_clear chain_example_mem [10, 20, 30] 4 (by decide) (by decide)
  ⟨m1, h1, h2, by rw [h3]; decide, h6⟩

/-! ## Record state machine, entry accessor, descriptor modes: claims -/

/-- C11: every run of `read_tls` that starts in INIT visits a prefix of INIT,
CONTENT_TYPE, VERSION, LENGTH, MESSAGE, DONE, issues a prefix of the requests
COPY_BYTES 1, COPY_BYTES 2, COPY_BYTES 2, COPY_BRIGADE length, DONE, and never
reaches `abort()` as long as the callback is not invoked after it answered
DONE; each successful step moves to the immediate successor, a failing step
leaves the state unchanged, and the callback aborts exactly in the states
outside INIT, CONTENT_TYPE, VERSION, LENGTH, MESSAGE. -/
theorem C11_linear_progress (rtls : rtls_baton_t) (vs : List sln_tok_value_t)
    (hinit : rtls.state = .TLS_RS__INIT) :
    (read_tls_run rtls vs).states <+: tls_state_order
    ∧ (read_tls_run rtls vs).requests
        <+: tls_request_order (read_tls_run rtls vs).final.length
    ∧ (read_tls_run rtls vs).aborted = false
    ∧ (read_tls_run rtls vs).states.getLast? = some (read_tls_run rtls vs).final.state
    ∧ (∀ (v v1 : sln_tok_value_t) (r r1 : rtls_baton_t),
        read_tls v r = .returned (none, v1, r1) → tls_successor r.state = some r1.state)
    ∧ (∀ (v v1 : sln_tok_value_t) (r r1 : rtls_baton_t) (e : selene_error_t),
        read_tls v r = .returned (some e, v1, r1) → r1.state = r.state)
    ∧ (∀ (v : sln_tok_value_t) (r : rtls_baton_t),
        read_tls v r = .aborted ↔
          r.state ∉ [tls_record_state_e.TLS_RS__INIT, .TLS_RS_CONTENT_TYPE, .TLS_RS_VERSION,
            .TLS_RS_LENGTH, .TLS_RS_MESSAGE]) := by
  refine ⟨?_, ?_, ?_, ?_, ?_, ?_, ?_⟩
  · obtain ⟨st, bt, ct, vmaj, vmin, len⟩ := rtls
    simp only at hinit
    subst hinit
    rcases vs with _ | ⟨v0, _ | ⟨v1, _ | ⟨v2, _ | ⟨v3, _ | ⟨v4, vs⟩⟩⟩⟩⟩ <;>
      (try by_cases hv : is_valid_content_type (tok_byte v1 0 % 256) = 0) <;>
      simp [read_tls_run, read_tls, tls_state_order, *]
  · obtain ⟨st, bt, ct, vmaj, vmin, len⟩ := rtls
    simp only at hinit
    subst hinit
    rcases vs with _ | ⟨v0, _ | ⟨v1, _ | ⟨v2, _ | ⟨v3, _ | ⟨v4, vs⟩⟩⟩⟩⟩ <;>
      (try by_cases hv : is_valid_content_type (tok_byte v1 0 % 256) = 0) <;>
      simp [read_tls_run, read_tls, tls_request_order, *]
  · obtain ⟨st, bt, ct, vmaj, vmin, len⟩ := rtls
    simp only at hinit
    subst hinit
    rcases vs with _ | ⟨v0, _ | ⟨v1, _ | ⟨v2, _ | ⟨v3, _ | ⟨v4, vs⟩⟩⟩⟩⟩ <;>
      (try by_cases hv : is_valid_content_type (tok_byte v1 0 % 256) = 0) <;>
      simp [read_tls_run, read_tls, *]
  · obtain ⟨st, bt, ct, vmaj, vmin, len⟩ := rtls
    simp only at hinit
    subst hinit
    rcases vs with _ | ⟨v0, _ | ⟨v1, _ | ⟨v2, _ | ⟨v3, _ | ⟨v4, vs⟩⟩⟩⟩⟩ <;>
      (try by_cases hv : is_valid_content_type (tok_byte v1 0 % 256) = 0) <;>
      simp [read_tls_run, read_tls, *]
  · intro v v1 r r1 h
    obtain ⟨st, bt, ct, vmaj, vmin, len⟩ := r
    cases st <;> simp only [read_tls] at h <;> (try split at h) <;> cases h <;> rfl
  · intro v v1 r r1 e h
    obtain ⟨st, bt, ct, vmaj, vmin, len⟩ := r
    cases st <;> simp only [read_tls] at h <;> (try split at h) <;> cases h
    rfl
  · intro v r
    obtain ⟨st, bt, ct, vmaj, vmin, len⟩ := r
    cases st <;> simp [read_tls]
    split <;> simp

/-- C11 on the descriptors of the record 16 03 01 00 05 01 02 03 04 05: all six
states are visited, the five requests are issued with length 5, no abort. -/
theorem C11_linear_progress_witness :
    (read_tls_run (rtls_init ⟨[], 0, 0⟩) run_example).states = tls_state_order
    ∧ (read_tls_run (rtls_init ⟨[], 0, 0⟩) run_example).requests = tls_request_order 5
    ∧ (read_tls_run (rtls_init ⟨[], 0, 0⟩) run_example).aborted = false :=
  ⟨by decide, by decide,
   (C11_linear_progress (rtls_init ⟨[], 0, 0⟩) run_example rfl).2.2.1⟩

/-- C12, the defect: `selene_cert_alt_names_entry` tests `offset >= nelts` only, so
for every negative offset it reads the cache array at that offset, outside its
elements, instead of returning null; for every offset from 0 on it returns the
cached name at that offset, or null when there is none. On the example
certificate (two cached names) offset -1 is read out of bounds. -/
theorem C12_alt_names_entry_negative_offset :
    (∀ (conf : selene_conf_t) (c : selene_cert_t) (arr : List (List Nat)) (n : Nat),
        (selene_cert_alt_names_entry conf { c with cache_subjectAltNames := some arr }
          (-((n : Int) + 1))).1 = .out_of_bounds (-((n : Int) + 1)))
    ∧ (∀ (conf : selene_conf_t) (c : selene_cert_t) (arr : List (List Nat)) (i : Nat),
        (selene_cert_alt_names_entry conf { c with cache_subjectAltNames := some arr }
          (i : Int)).1 = (match arr[i]? with
            | some x => .name x
            | none => .null))
    ∧ (selene_cert_alt_names_count ⟨0, 0⟩
        (cert_fresh x509_example 0 .sentinel .sentinel)).1 = 2
    ∧ (selene_cert_alt_names_entry ⟨0, 0⟩
        (cert_fresh x509_example 0 .sentinel .sentinel) (-1)).1 = .out_of_bounds (-1)
    ∧ (selene_cert_alt_names_entry ⟨0, 0⟩
        (cert_fresh x509_example 0 .sentinel .sentinel) 2).1 = .null := by
  refine ⟨?_, ?_, by decide, by decide, by decide⟩
  · intro conf c arr n
    have h1 : ¬ (-((n : Int) + 1) ≥ (arr.length : Int)) := by omega
    have h2 : ¬ (0 ≤ -((n : Int) + 1)) := by omega
    simp only [selene_cert_alt_names_entry, reduceCtorEq, if_false, h1, SLN_ARRAY_IDX, h2]
  · intro conf c arr i
    by_cases hi : i < arr.length
    · have h1 : ¬ ((i : Int) ≥ (arr.length : Int)) := by omega
      simp [selene_cert_alt_names_entry, h1, SLN_ARRAY_IDX, List.getElem?_eq_getElem hi]
    · have h1 : (i : Int) ≥ (arr.length : Int) := by omega
      simp [selene_cert_alt_names_entry, h1, List.getElem?_eq_none (Nat.le_of_not_lt hi)]

/-- C13: when the driver hands back what a run of the callback from the fresh
baton left (its error and its final baton), and that run failed or did not
reach DONE, the run has not touched the native baton and
`sln_native_io_tls_read` returns with the handshake brigade and the peer version
exactly as they were before the call. -/
theorem C13_failed_read_keeps_handshake (tok : sln_tok_driver rtls_baton_t) (s : selene_t)
    (baton : sln_native_baton_t) (vs : List sln_tok_value_t) (bb : sln_brigade_t)
    (hdrv : tok s.in_enc read_tls (rtls_init baton)
      = some (.returned ((read_tls_run (rtls_init baton) vs).error, bb,
          (read_tls_run (rtls_init baton) vs).final)))
    (hfail : (read_tls_run (rtls_init baton) vs).error ≠ none
      ∨ (read_tls_run (rtls_init baton) vs).final.state ≠ .TLS_RS__DONE) :
    (read_tls_run (rtls_init baton) vs).final.baton = baton
    ∧ sln_native_io_tls_read tok s baton
      = some (.returned ((read_tls_run (rtls_init baton) vs).error,
          { s with in_enc := bb }, baton)) := by
  have hbaton : (read_tls_run (rtls_init baton) vs).final.baton = baton := by
    revert hfail
    rcases vs with _ | ⟨v0, _ | ⟨v1, _ | ⟨v2, _ | ⟨v3, _ | ⟨v4, vs⟩⟩⟩⟩⟩ <;>
      (try by_cases hv : is_valid_content_type (tok_byte v1 0 % 256) = 0) <;>
      simp [read_tls_run, read_tls, rtls_init, *]
  refine ⟨hbaton, ?_⟩
  unfold sln_native_io_tls_read
  rw [hdrv]
  cases herr : (read_tls_run (rtls_init baton) vs).error with
  | some e => simp only [hbaton]
  | none =>
    have hstate : (read_tls_run (rtls_init baton) vs).final.state ≠ .TLS_RS__DONE := by
      rcases hfail with h | h
      · exact absurd herr h
      · exact h
    simp only [hstate, if_false, hbaton]

/-- C13 with the modelled driver, on a session holding handshake bytes 09 and
peer version (3,1): FF 03 01 00 00 returns the error and 16 03 stops before
DONE; both leave the baton as it was. -/
theorem C13_failed_read_keeps_handshake_witness :
    sln_native_io_tls_read (sln_tok_parser_run 5) { in_enc := [255, 3, 1, 0, 0] } ⟨[9], 3, 1⟩
      = some (.returned (some { err := .SELENE_EINVAL, msg := "Invalid content type: 255" },
          { in_enc := [3, 1, 0, 0] }, ⟨[9], 3, 1⟩))
    ∧ sln_native_io_tls_read (sln_tok_parser_run 5) { in_enc := [22, 3] } ⟨[9], 3, 1⟩
      = some (.returned (none, { in_enc := [3] }, ⟨[9], 3, 1⟩)) :=
  ⟨(C13_failed_read_keeps_handshake (sln_tok_parser_run 5) { in_enc := [255, 3, 1, 0, 0] }
      ⟨[9], 3, 1⟩
      [sln_tok_value_zero, { next := .TOK_COPY_BYTES, wantlen := 1, bytes := [255], bb := [] }]
      [3, 1, 0, 0] (by decide) (Or.inl (by decide))).2,
   (C13_failed_read_keeps_handshake (sln_tok_parser_run 5) { in_enc := [22, 3] }
      ⟨[9], 3, 1⟩
      [sln_tok_value_zero, { next := .TOK_COPY_BYTES, wantlen := 1, bytes := [22], bb := [] }]
      [3] (by decide) (Or.inr (by decide))).2⟩

/-- C14, the defect: with `O_NONBLOCK` a single bit, `setblocking` writes back the
word with that bit inverted and every other bit as in `opts`, so on a
descriptor whose `O_NONBLOCK` bit is clear it sets the bit (flag word 2 with
`O_NONBLOCK` 2048 becomes 2050); `setnonblocking` writes back the word with the
bit set and every other bit as in `opts`. -/
theorem C14_setblocking_toggles :
    (∀ k opts j : Nat, (setblocking (2 ^ k) opts).testBit j
        = (if j = k then !opts.testBit k else opts.testBit j))
    ∧ (∀ k opts j : Nat, (setnonblocking (2 ^ k) opts).testBit j
        = (if j = k then true else opts.testBit j))
    ∧ setblocking 2048 2 = 2050
    ∧ (setblocking 2048 2).testBit 11 = true
    ∧ setblocking 2048 2050 = 2 := by
  refine ⟨?_, ?_, by decide, by decide, by decide⟩
  · intro k opts j
    simp only [setblocking, Nat.testBit_xor, Nat.testBit_two_pow]
    by_cases h : j = k
    · subst h
      simp
    · have h2 : ¬ k = j := fun e => h e.symm
      simp [h, h2]
  · intro k opts j
    simp only [setnonblocking, Nat.testBit_or, Nat.testBit_two_pow]
    by_cases h : j = k
    · subst h
      simp
    · have h2 : ¬ k = j := fun e => h e.symm
      simp [h, h2]

end Selene
